import Mathlib

/-!
# Verification of the gae-sessions session middleware

A shallow embedding of `gaesessions/__init__.py` (the `Session` class, its
save/load/cookie machinery, and the `delete_expired_sessions` reaper),
together with theorems settling the specification claims.

Conventions of the embedding:
* Python strings of session ids / cookie values are `List Char`;
  byte strings (pickled payloads) are `List Nat`.
* Python integers are `Nat` (all quantities involved are non-negative);
  Python floor division on non-negative operands is `Nat` division, and the
  one place where a negative intermediate can occur (`(len(cv)-1)/m` in
  `make_cookie_headers`) uses `Int.fdiv`, Python's floor division.
* External collaborators (HMAC, the protobuf adapter for `db.Model` values,
  `pickle`) are not part of this repository; they are modelled from the
  spec's boundary contracts (see the doc comments at their definitions).
* Stateful methods become functions `State → State` (plus an explicit list
  of backend `Effect`s for `save`, where the claims are about which backend
  writes occur).
-/

namespace GaeSessions

/-! ## Decimal printing and parsing

`'%010d' % expire_ts` and `int(s)` from the source, embedded on `List Char`.
`toDigitsRevAux` is fuel-based structural recursion so that the kernel can
evaluate it; it is proved equal to `Nat.digits 10`. -/

/-- Little-endian base-10 digits, fuel-based (fuel `n` always suffices). -/
def toDigitsRevAux : Nat → Nat → List Nat
  | 0, _ => []
  | fuel + 1, n => if n = 0 then [] else n % 10 :: toDigitsRevAux fuel (n / 10)

/-- Little-endian base-10 digits of `n`. -/
def toDigitsRev (n : Nat) : List Nat :=
  toDigitsRevAux n n

/-- Decimal rendering of a natural number, as Python's `'%d' % n`. -/
def natRepr (n : Nat) : List Char :=
  if n = 0 then ['0'] else (toDigitsRev n).reverse.map Nat.digitChar

/-- Python `'%010d' % n`: zero-pad the decimal rendering to (at least) 10 chars. -/
def pad10 (n : Nat) : List Char :=
  List.replicate (10 - (natRepr n).length) '0' ++ natRepr n

/-- Numeric value of a decimal digit character. -/
def charToDigit (c : Char) : Nat :=
  c.toNat - 48

/-- Python `int(s)` on a string of decimal digits; `none` when the string is empty
or contains a non-digit (the source wraps the call in `try/except`). -/
def parseNat? (cs : List Char) : Option Nat :=
  if cs ≠ [] ∧ cs.all Char.isDigit then
    some (cs.foldl (fun a c => a * 10 + charToDigit c) 0)
  else
    none

theorem toDigitsRevAux_eq_digits :
    ∀ fuel n, n ≤ fuel → toDigitsRevAux fuel n = Nat.digits 10 n := by
  intro fuel
  induction fuel with
  | zero =>
    intro n h
    interval_cases n
    simp [toDigitsRevAux]
  | succ f ih =>
    intro n h
    by_cases h0 : n = 0
    · simp [toDigitsRevAux, h0]
    · rw [toDigitsRevAux, if_neg h0,
        Nat.digits_def' (by norm_num : (1:Nat) < 10) (Nat.pos_of_ne_zero h0),
        ih (n / 10)]
      have : n / 10 < n := Nat.div_lt_self (Nat.pos_of_ne_zero h0) (by norm_num)
      omega

theorem toDigitsRev_eq_digits (n : Nat) : toDigitsRev n = Nat.digits 10 n :=
  toDigitsRevAux_eq_digits n n (Nat.le_refl n)

theorem digitChar_isDigit : ∀ d, d < 10 → (Nat.digitChar d).isDigit = true := by
  decide

theorem charToDigit_digitChar : ∀ d, d < 10 → charToDigit (Nat.digitChar d) = d := by
  decide

theorem natRepr_all_isDigit (n : Nat) : (natRepr n).all Char.isDigit = true := by
  unfold natRepr
  by_cases h : n = 0
  · simp [h]
  · rw [if_neg h, List.all_eq_true]
    intro c hc
    rcases List.mem_map.mp hc with ⟨d, hd, rfl⟩
    exact digitChar_isDigit d
      (Nat.digits_lt_base (by norm_num) (by
        rw [toDigitsRev_eq_digits] at hd
        exact List.mem_reverse.mp hd))

theorem natRepr_ne_nil (n : Nat) : natRepr n ≠ [] := by
  unfold natRepr
  by_cases h : n = 0
  · simp [h]
  · rw [if_neg h]
    simp only [ne_eq, List.map_eq_nil_iff, List.reverse_eq_nil_iff, toDigitsRev_eq_digits]
    exact Nat.digits_ne_nil_iff_ne_zero.mpr h

/-- Folding the decimal-parse step over the printed digits recovers the value. -/
theorem foldl_parse_digits (f : Nat → Char → Nat)
    (hf : ∀ a c, f a c = a * 10 + charToDigit c) :
    ∀ ds : List Nat, (∀ d ∈ ds, d < 10) →
      (ds.reverse.map Nat.digitChar).foldl f 0 = Nat.ofDigits 10 ds := by
  intro ds
  induction ds with
  | nil => simp [Nat.ofDigits]
  | cons d t ih =>
    intro hlt
    have hd : d < 10 := hlt d (List.mem_cons_self d t)
    have ht : ∀ x ∈ t, x < 10 := fun x hx => hlt x (List.mem_cons_of_mem d hx)
    simp only [List.reverse_cons, List.map_append, List.map_cons, List.map_nil,
      List.foldl_append, List.foldl_cons, List.foldl_nil]
    rw [ih ht, hf, charToDigit_digitChar d hd, Nat.ofDigits_cons]
    ring

theorem foldl_parse_natRepr (n : Nat) :
    (natRepr n).foldl (fun a c => a * 10 + charToDigit c) 0 = n := by
  unfold natRepr
  by_cases h : n = 0
  · simp [h, charToDigit]
  · rw [if_neg h, toDigitsRev_eq_digits,
      foldl_parse_digits _ (fun a c => rfl) _
        (fun d hd => Nat.digits_lt_base (by norm_num) hd),
      Nat.ofDigits_digits]

theorem foldl_parse_zeros (k : Nat) (l : List Char) :
    (List.replicate k '0' ++ l).foldl (fun a c => a * 10 + charToDigit c) 0 =
      l.foldl (fun a c => a * 10 + charToDigit c) 0 := by
  induction k with
  | zero => simp
  | succ m ih =>
    simpa [List.replicate_succ, charToDigit] using ih

/-- Parsing the zero-padded decimal rendering recovers the value. -/
theorem parseNat?_pad10 (n : Nat) : parseNat? (pad10 n) = some n := by
  unfold parseNat? pad10
  rw [if_pos]
  · rw [foldl_parse_zeros, foldl_parse_natRepr]
  · constructor
    · simp [natRepr_ne_nil n]
    · rw [List.all_append, natRepr_all_isDigit n, Bool.and_true, List.all_eq_true]
      intro c hc
      rw [List.eq_of_mem_replicate hc]
      decide

theorem pad10_length (n : Nat) (h : n ≤ 9999999999) : (pad10 n).length = 10 := by
  have hlen : (natRepr n).length ≤ 10 := by
    unfold natRepr
    by_cases h0 : n = 0
    · simp [h0]
    · rw [if_neg h0]
      simp only [List.length_map, List.length_reverse, toDigitsRev_eq_digits]
      rw [Nat.digits_len 10 n (by norm_num) h0]
      have : Nat.log 10 n < 10 :=
        Nat.log_lt_of_lt_pow h0 (by omega)
      omega
  simp [pad10]
  omega

/-! ## Session identifiers

`Session.__make_sid`, `Session.get_expiration`, `Session.is_ssl_only`.
A sid is 10 decimal chars of expiration, a separator (`'S'` when the
session is SSL-only, else `'_'`), and 32 hex chars of randomness (the
source draws them from `md5(os.urandom(16)).hexdigest()`; the embedding
takes them as an argument). -/

/-- Source `Session.__make_sid(expire_ts, ssl_only)`.  When `expire_ts` is absent
the source uses now + lifetime, which the caller passes as
`defaultExpire`. -/
def make_sid (expire_ts : Option Nat) (ssl_only : Bool) (defaultExpire : Nat)
    (randHex : List Char) : List Char :=
  let ts := match expire_ts with
    | none => defaultExpire
    | some t => t
  pad10 ts ++ (if ssl_only then 'S' else '_') :: randHex

/-- Source `Session.get_expiration`: `int(self.sid[:-33])`, 0 on any failure
(the bare `except` also covers `sid is None`). -/
def get_expiration (sid : Option (List Char)) : Nat :=
  match sid with
  | none => 0
  | some s => (parseNat? (s.take (s.length - 33))).getD 0

/-- Source `Session.is_ssl_only`: `self.sid is not None and self.sid[-33] == 'S'`.
(For the 43-char sids the source produces, index `-33` is index
`length - 33`; on shorter strings Python would raise, which no claim
exercises.) -/
def is_ssl_only (sid : Option (List Char)) : Bool :=
  match sid with
  | none => false
  | some s => s.getD (s.length - 33) ' ' == 'S'

theorem make_sid_parts (ts : Nat) (hts : ts ≤ 9999999999) (secure : Bool)
    (defaultExpire : Nat) (hex : List Char) (hlen : hex.length = 32) :
    (make_sid (some ts) secure defaultExpire hex).take
        ((make_sid (some ts) secure defaultExpire hex).length - 33) = pad10 ts ∧
    (make_sid (some ts) secure defaultExpire hex).getD
        ((make_sid (some ts) secure defaultExpire hex).length - 33) ' ' =
      (if secure then 'S' else '_') := by
  have hp := pad10_length ts hts
  have hL : (make_sid (some ts) secure defaultExpire hex).length = 43 := by
    simp [make_sid, hp, hlen]
  constructor
  · rw [hL]
    show (pad10 ts ++ (if secure then 'S' else '_') :: hex).take 10 = pad10 ts
    rw [List.take_append_of_le_length (by omega), List.take_of_length_le (by omega)]
  · rw [hL]
    show (pad10 ts ++ (if secure then 'S' else '_') :: hex).getD 10 ' ' =
      (if secure then 'S' else '_')
    rw [List.getD_eq_getElem?_getD, List.getElem?_append_right (by omega)]
    simp [hp]

/-- C1.  For every timestamp `ts` with at most 10 decimal digits and every
boolean `secure`, the sid returned by `make_sid(ts, secure)` satisfies
`expiration(sid) == ts` and `is_secure(sid) == secure`. -/
theorem C1_make_sid_roundtrip (ts : Nat) (hts : ts ≤ 9999999999) (secure : Bool)
    (defaultExpire : Nat) (hex : List Char) (hlen : hex.length = 32) :
    get_expiration (some (make_sid (some ts) secure defaultExpire hex)) = ts ∧
    is_ssl_only (some (make_sid (some ts) secure defaultExpire hex)) = secure := by
  obtain ⟨h1, h2⟩ := make_sid_parts ts hts secure defaultExpire hex hlen
  constructor
  · show (parseNat? _).getD 0 = ts
    rw [h1, parseNat?_pad10]
    rfl
  · show (_ == 'S') = secure
    rw [h2]
    cases secure <;> decide

/-- Witness for C1 at `ts = 1234567890`, `secure = true`. -/
theorem C1_witness :
    get_expiration (some (make_sid (some 1234567890) true 0 (List.replicate 32 'a'))) =
        1234567890 ∧
    is_ssl_only (some (make_sid (some 1234567890) true 0 (List.replicate 32 'a'))) =
        true :=
  C1_make_sid_roundtrip 1234567890 (by norm_num) true 0 (List.replicate 32 'a')
    (by simp)

/-! ## The codec: `Session.__encode_data` / `Session.__decode_data`

Session values are either plain picklable values ("light") or `db.Model`
instances ("heavy"); the source encodes the heavy ones through
`db.model_to_protobuf` before pickling the pair `(eP, eO)` of dictionaries.
Python dictionaries become association lists with unique keys (keys are
`Nat`, values `Val`); dictionary equality is pointwise `dictGet`
equality. -/

/-- A session value: either an opaque light value or a `db.Model`. -/
inductive Val where
  | light (n : Nat)
  | model (m : Nat)
deriving DecidableEq, Repr

/-- A Python dict as an association list (keys unique in well-formed dicts). -/
abbrev Dict := List (Nat × Val)

/-- Modelled from the spec: the heavy-value adapter `to_bytes(record)` of
`db.model_to_protobuf`, an external collaborator whose contract (§6, §9) is
that `from_bytes` inverts it.  The protobuf wire form is represented by the
model's identity. -/
def db_model_to_protobuf (m : Nat) : Nat := m

/-- Modelled from the spec: the heavy-value adapter `from_bytes(bytes)` of
`db.model_from_protobuf`, exact inverse of `db_model_to_protobuf`. -/
def db_model_from_protobuf (p : Nat) : Val := Val.model p

/-- Byte encoding of one light-dict entry inside the pickled pair. -/
def pickleEntryO (e : Nat × Val) : List Nat :=
  match e.2 with
  | Val.light n => [e.1, 0, n]
  | Val.model m => [e.1, 1, m]

/-- Modelled from the spec: `pickle.dumps((eP, eO), 2)` for the pair of
dictionaries the source pickles.  `pickle` is an external collaborator; the
spec requires only a versioned deterministic byte format whose decode is
the exact inverse (§4.1), so the pair is framed as
`len eP :: entries, len eO :: entries`. -/
def pickleDumps (p : List (Nat × Nat) × Dict) : List Nat :=
  (p.1.length :: p.1.flatMap (fun e => [e.1, e.2])) ++
    (p.2.length :: p.2.flatMap pickleEntryO)

/-- Decoder for the protobuf-entry list of `pickleDumps`. -/
def decPairsP : Nat → List Nat → Option (List (Nat × Nat) × List Nat)
  | 0, rest => some ([], rest)
  | n + 1, k :: p :: rest => (decPairsP n rest).map fun q => ((k, p) :: q.1, q.2)
  | _ + 1, _ => none

/-- Decoder for the light-entry list of `pickleDumps`. -/
def decEntriesO : Nat → List Nat → Option (Dict × List Nat)
  | 0, rest => some ([], rest)
  | n + 1, k :: 0 :: v :: rest =>
    (decEntriesO n rest).map fun q => ((k, Val.light v) :: q.1, q.2)
  | n + 1, k :: 1 :: v :: rest =>
    (decEntriesO n rest).map fun q => ((k, Val.model v) :: q.1, q.2)
  | _ + 1, _ => none

/-- Modelled from the spec: `pickle.loads`, inverse of `pickleDumps`;
`none` on malformed input (the source catches the raised exception). -/
def pickleLoads (bs : List Nat) : Option (List (Nat × Nat) × Dict) :=
  match bs with
  | [] => none
  | n :: rest =>
    match decPairsP n rest with
    | none => none
    | some (eP, rest2) =>
      match rest2 with
      | [] => none
      | m :: rest3 =>
        match decEntriesO m rest3 with
        | none => none
        | some (eO, rest4) => if rest4 = [] then some (eP, eO) else none

/-- Is this value a `db.Model` (`isinstance(v, db.Model)`)? -/
def isModelVal : Val → Bool
  | Val.model _ => true
  | Val.light _ => false

/-- Source `Session.__encode_data(d)`: split the models from the light values,
protobuf-encode the models, pickle the pair. -/
def encode_data (d : Dict) : List Nat :=
  let eP := d.filterMap fun e =>
    match e.2 with
    | Val.model m => some (e.1, db_model_to_protobuf m)
    | Val.light _ => none
  let eO := d.filter fun e => !isModelVal e.2
  pickleDumps (eP, eO)

/-- Python dict assignment `d[k] = v`: replace the binding if present,
else append. -/
def dictSet : Dict → Nat → Val → Dict
  | [], k, v => [(k, v)]
  | e :: rest, k, v => if e.1 = k then (k, v) :: rest else e :: dictSet rest k v

/-- Python dict lookup `d[k]` (as an `Option`). -/
def dictGet : Dict → Nat → Option Val
  | [], _ => none
  | e :: rest, k => if e.1 = k then some e.2 else dictGet rest k

/-- Source `Session.__decode_data(pdump)`: unpickle and merge the
protobuf-decoded models back into the light dict; on failure return the
empty dict (the source logs a warning). -/
def decode_data (bs : List Nat) : Dict :=
  match pickleLoads bs with
  | none => []
  | some (eP, eO) =>
    eP.foldl (fun acc e => dictSet acc e.1 (db_model_from_protobuf e.2)) eO

theorem decPairsP_dumps (eP : List (Nat × Nat)) (rest : List Nat) :
    decPairsP eP.length (eP.flatMap (fun e => [e.1, e.2]) ++ rest) =
      some (eP, rest) := by
  induction eP with
  | nil => simp [decPairsP]
  | cons e t ih =>
    rw [List.length_cons, List.flatMap_cons, List.append_assoc, List.cons_append,
      List.cons_append, List.nil_append]
    simp only [decPairsP]
    rw [ih]
    rfl

theorem decEntriesO_dumps (eO : Dict) (rest : List Nat) :
    decEntriesO eO.length (eO.flatMap pickleEntryO ++ rest) = some (eO, rest) := by
  induction eO with
  | nil => simp [decEntriesO]
  | cons e t ih =>
    obtain ⟨k, v⟩ := e
    cases v with
    | light n =>
      rw [List.length_cons, List.flatMap_cons,
        show pickleEntryO (k, Val.light n) = [k, 0, n] from rfl,
        List.append_assoc, List.cons_append, List.cons_append, List.cons_append,
        List.nil_append]
      simp only [decEntriesO]
      rw [ih]
      rfl
    | model m =>
      rw [List.length_cons, List.flatMap_cons,
        show pickleEntryO (k, Val.model m) = [k, 1, m] from rfl,
        List.append_assoc, List.cons_append, List.cons_append, List.cons_append,
        List.nil_append]
      simp only [decEntriesO]
      rw [ih]
      rfl

theorem pickleLoads_dumps (p : List (Nat × Nat) × Dict) :
    pickleLoads (pickleDumps p) = some p := by
  obtain ⟨eP, eO⟩ := p
  show pickleLoads ((eP.length :: _) ++ (eO.length :: _)) = _
  rw [List.cons_append, pickleLoads]
  rw [show eP.flatMap (fun e => [e.1, e.2]) ++ (eO.length :: eO.flatMap pickleEntryO) =
      eP.flatMap (fun e => [e.1, e.2]) ++ ((eO.length :: eO.flatMap pickleEntryO) ++ []) by
    simp]
  rw [decPairsP_dumps eP]
  simp only [List.cons_append, List.nil_append]
  rw [show eO.flatMap pickleEntryO ++ [] = eO.flatMap pickleEntryO ++ ([] : List Nat) from rfl]
  rw [decEntriesO_dumps eO]
  rfl

theorem dictGet_dictSet_self (l : Dict) (k : Nat) (v : Val) :
    dictGet (dictSet l k v) k = some v := by
  induction l with
  | nil => simp [dictSet, dictGet]
  | cons e t ih =>
    by_cases h : e.1 = k
    · simp [dictSet, dictGet, h]
    · simp [dictSet, dictGet, h, ih]

theorem dictGet_dictSet_ne (l : Dict) (k k' : Nat) (v : Val) (h : k' ≠ k) :
    dictGet (dictSet l k' v) k = dictGet l k := by
  induction l with
  | nil => simp [dictSet, dictGet, h]
  | cons e t ih =>
    rw [dictSet]
    by_cases he : e.1 = k'
    · rw [if_pos he, dictGet, if_neg h, dictGet, if_neg (by rw [he]; exact h)]
    · rw [if_neg he]
      by_cases hk : e.1 = k
      · rw [dictGet, if_pos hk, dictGet, if_pos hk]
      · rw [dictGet, if_neg hk, dictGet, if_neg hk, ih]

theorem mem_of_dictGet {d : Dict} {k : Nat} {v : Val}
    (h : dictGet d k = some v) : (k, v) ∈ d := by
  induction d with
  | nil => simp [dictGet] at h
  | cons e t ih =>
    by_cases he : e.1 = k
    · rw [dictGet, if_pos he] at h
      refine List.mem_cons.mpr (Or.inl ?_)
      obtain ⟨k1, v1⟩ := e
      simp only [Option.some.injEq] at h
      simp_all
    · rw [dictGet, if_neg he] at h
      exact List.mem_cons_of_mem e (ih h)

theorem dictGet_none_iff {d : Dict} {k : Nat} :
    dictGet d k = none ↔ k ∉ d.map Prod.fst := by
  induction d with
  | nil => simp [dictGet]
  | cons e t ih =>
    by_cases he : e.1 = k
    · simp [dictGet, he]
    · simp only [dictGet, if_neg he, ih, List.map_cons, List.mem_cons]
      constructor
      · rintro h (h1 | h2)
        · exact he h1.symm
        · exact h h2
      · intro h h2
        exact h (Or.inr h2)

theorem dictGet_of_mem {d : Dict} {k : Nat} {v : Val}
    (hnd : (d.map Prod.fst).Nodup) (h : (k, v) ∈ d) : dictGet d k = some v := by
  induction d with
  | nil => simp at h
  | cons e t ih =>
    rcases List.mem_cons.mp h with h1 | h2
    · rw [← h1, dictGet, if_pos rfl]
    · have he : e.1 ≠ k := by
        intro hek
        have : k ∈ t.map Prod.fst := List.mem_map.mpr ⟨(k, v), h2, rfl⟩
        rw [List.map_cons, List.nodup_cons, hek] at hnd
        exact hnd.1 this
      rw [dictGet, if_neg he]
      exact ih (List.nodup_cons.mp (by simpa using hnd)).2 h2

theorem dictGet_foldl_not_mem {k : Nat} :
    ∀ (eP : List (Nat × Nat)) (acc : Dict), k ∉ eP.map Prod.fst →
      dictGet (eP.foldl (fun acc e => dictSet acc e.1 (db_model_from_protobuf e.2)) acc) k =
        dictGet acc k := by
  intro eP
  induction eP with
  | nil => simp
  | cons e t ih =>
    intro acc h
    simp only [List.map_cons, List.mem_cons] at h
    push_neg at h
    rw [List.foldl_cons, ih _ h.2, dictGet_dictSet_ne _ _ _ _ (Ne.symm h.1)]

theorem dictGet_foldl_mem {k : Nat} {p : Nat} :
    ∀ (eP : List (Nat × Nat)) (acc : Dict), (eP.map Prod.fst).Nodup →
      (k, p) ∈ eP →
      dictGet (eP.foldl (fun acc e => dictSet acc e.1 (db_model_from_protobuf e.2)) acc) k =
        some (db_model_from_protobuf p) := by
  intro eP
  induction eP with
  | nil => simp
  | cons e t ih =>
    intro acc hnd hm
    rcases List.mem_cons.mp hm with h1 | h2
    · have hk : k ∉ t.map Prod.fst := by
        rw [List.map_cons, List.nodup_cons] at hnd
        rw [← h1] at hnd
        exact hnd.1
      rw [List.foldl_cons, dictGet_foldl_not_mem t _ hk, ← h1,
        dictGet_dictSet_self]
    · rw [List.foldl_cons]
      exact ih _ (List.nodup_cons.mp (by simpa using hnd)).2 h2

/-- The keys of the protobuf part of `encode_data` form a sublist of the
keys of `d`. -/
theorem encode_eP_keys_sublist (d : Dict) :
    ((d.filterMap fun e =>
      match e.2 with
      | Val.model m => some (e.1, db_model_to_protobuf m)
      | Val.light _ => none).map Prod.fst).Sublist (d.map Prod.fst) := by
  induction d with
  | nil => simp
  | cons e t ih =>
    obtain ⟨k, v⟩ := e
    cases v with
    | light n =>
      simp only [List.filterMap_cons, List.map_cons]
      exact ih.trans (List.sublist_cons_self _ _)
    | model m =>
      simp only [List.filterMap_cons, List.map_cons]
      exact ih.cons₂ k

theorem encode_eO_keys_sublist (d : Dict) :
    (((d.filter fun e => !isModelVal e.2).map Prod.fst)).Sublist (d.map Prod.fst) :=
  (List.filter_sublist d).map Prod.fst

theorem dict_val_unique {d : Dict} {k : Nat} {v1 v2 : Val}
    (hnd : (d.map Prod.fst).Nodup) (h1 : (k, v1) ∈ d) (h2 : (k, v2) ∈ d) :
    v1 = v2 := by
  have e1 := dictGet_of_mem hnd h1
  have e2 := dictGet_of_mem hnd h2
  rw [e1] at e2
  exact (Option.some.injEq _ _).mp e2.symm |>.symm

/-- One-sided round trip: `decode_data (encode_data d)` agrees with `d`
pointwise when `d` has unique keys. -/
theorem decode_encode_lookup (d : Dict) (hnd : (d.map Prod.fst).Nodup) (k : Nat) :
    dictGet (decode_data (encode_data d)) k = dictGet d k := by
  have hload : decode_data (encode_data d) =
      (d.filterMap fun e =>
        match e.2 with
        | Val.model m => some (e.1, db_model_to_protobuf m)
        | Val.light _ => none).foldl
        (fun acc e => dictSet acc e.1 (db_model_from_protobuf e.2))
        (d.filter fun e => !isModelVal e.2) := by
    rw [encode_data, decode_data, pickleLoads_dumps]
  set eP := d.filterMap fun e =>
    match e.2 with
    | Val.model m => some (e.1, db_model_to_protobuf m)
    | Val.light _ => none with heP
  set eO := d.filter fun e => !isModelVal e.2 with heO
  have hndP : (eP.map Prod.fst).Nodup := (encode_eP_keys_sublist d).nodup hnd
  have hndO : (eO.map Prod.fst).Nodup := (encode_eO_keys_sublist d).nodup hnd
  rw [hload]
  cases hdk : dictGet d k with
  | none =>
    have hk : k ∉ d.map Prod.fst := dictGet_none_iff.mp hdk
    have hkP : k ∉ eP.map Prod.fst := fun h => hk ((encode_eP_keys_sublist d).subset h)
    have hkO : k ∉ eO.map Prod.fst := fun h => hk ((encode_eO_keys_sublist d).subset h)
    rw [dictGet_foldl_not_mem eP eO hkP, dictGet_none_iff.mpr hkO]
  | some v =>
    have hmem : (k, v) ∈ d := mem_of_dictGet hdk
    cases v with
    | model m =>
      have hP : (k, db_model_to_protobuf m) ∈ eP := by
        rw [heP, List.mem_filterMap]
        exact ⟨(k, Val.model m), hmem, rfl⟩
      rw [dictGet_foldl_mem eP eO hndP hP]
      rfl
    | light n =>
      have hO : (k, Val.light n) ∈ eO := by
        rw [heO, List.mem_filter]
        exact ⟨hmem, rfl⟩
      have hkP : k ∉ eP.map Prod.fst := by
        intro hin
        rcases List.mem_map.mp hin with ⟨⟨k', p⟩, hp, hfst⟩
        rcases List.mem_filterMap.mp (heP ▸ hp) with ⟨⟨k2, v2⟩, hv2, heq⟩
        cases v2 with
        | light _ => simp at heq
        | model m2 =>
          simp only [Option.some.injEq, Prod.mk.injEq] at heq
          have hk2 : (k, Val.model m2) ∈ d := by
            subst hfst
            rwa [show k2 = k' by exact heq.1] at hv2
          exact absurd (dict_val_unique hnd hmem hk2) (by simp)
      rw [dictGet_foldl_not_mem eP eO hkP, dictGet_of_mem hndO hO]

theorem dictGet_eq_of_perm {d d' : Dict} (hp : d.Perm d')
    (hnd : (d.map Prod.fst).Nodup) (k : Nat) : dictGet d k = dictGet d' k := by
  have hnd' : (d'.map Prod.fst).Nodup := ((hp.map Prod.fst).nodup_iff).mp hnd
  cases h : dictGet d k with
  | none =>
    rw [dictGet_none_iff.mpr]
    intro hk
    exact dictGet_none_iff.mp h ((hp.map Prod.fst).mem_iff.mpr hk)
  | some v =>
    exact (dictGet_of_mem hnd' (hp.mem_iff.mp (mem_of_dictGet h))).symm

/-- C7.  For every key-to-value mapping `d`, `decode(encode(d)) == d`
(pointwise dict equality), and the insertion order of the keys of `d` does
not affect equality of the decoded mapping. -/
theorem C7_decode_encode_roundtrip (d : Dict) (hnd : (d.map Prod.fst).Nodup) :
    (∀ k, dictGet (decode_data (encode_data d)) k = dictGet d k) ∧
    ∀ d' : Dict, d.Perm d' →
      ∀ k, dictGet (decode_data (encode_data d')) k =
        dictGet (decode_data (encode_data d)) k := by
  refine ⟨decode_encode_lookup d hnd, fun d' hp k => ?_⟩
  have hnd' : (d'.map Prod.fst).Nodup := ((hp.map Prod.fst).nodup_iff).mp hnd
  rw [decode_encode_lookup d hnd k, decode_encode_lookup d' hnd' k,
    dictGet_eq_of_perm hp hnd k]

/-- Witness for C7 on the dict mapping key 1 to a model and 2 to a light
value, with its two insertion orders. -/
theorem C7_witness :
    dictGet (decode_data (encode_data [(1, Val.model 5), (2, Val.light 7)])) 1 =
      dictGet [(1, Val.model 5), (2, Val.light 7)] 1 ∧
    dictGet (decode_data (encode_data [(2, Val.light 7), (1, Val.model 5)])) 2 =
      dictGet (decode_data (encode_data [(1, Val.model 5), (2, Val.light 7)])) 2 :=
  ⟨(C7_decode_encode_roundtrip [(1, Val.model 5), (2, Val.light 7)] (by decide)).1 1,
    (C7_decode_encode_roundtrip [(1, Val.model 5), (2, Val.light 7)] (by decide)).2
      [(2, Val.light 7), (1, Val.model 5)] (by decide) 2⟩

/-! ## Session state

The mutable attributes of a `Session` instance (`__init__`), plus the
configuration snapshot.  Backend I/O becomes an explicit `World` (read
side) and a list of `Effect`s (write side of `save`); `db_key` is omitted
as it is a pure function of `sid`. -/

/-- The three-valued dirty flag: Python `False` / `1`
(`DIRTY_BUT_DONT_PERSIST_TO_DB`) / `True`. -/
inductive Dirty where
  | clean
  | memOnly
  | full
deriving DecidableEq, Repr

/-- The session's instance attributes. -/
structure State where
  accessed : Bool
  sid : Option (List Char)
  cookie_keys : List (List Char)
  cookie_data : Option (List Nat)
  data : Option Dict
  dirty : Dirty
  lifetime : Nat
  no_datastore : Bool
  cookie_only_thresh : Nat
  base_key : List Char
deriving DecidableEq, Repr

/-- Read-side backend contents: memcache and datastore keyed by sid. -/
structure World where
  cache : List Char → Option (List Nat)
  db : List Char → Option (List Nat)

/-- A backend write performed during `save` (`ok` records whether the
datastore `put` succeeded or raised). -/
inductive Effect where
  | cacheSet (sid : List Char) (pdump : List Nat) (ttl : Nat)
  | dbPut (sid : List Char) (pdump : List Nat) (ok : Bool)
deriving DecidableEq, Repr

/-- A fresh state as built by `Session.__init__` before cookie reading. -/
def initial (lifetime : Nat) (no_datastore : Bool) (cookie_only_threshold : Nat)
    (cookie_key : List Char) : State :=
  { accessed := false, sid := none, cookie_keys := [], cookie_data := none,
    data := some [], dirty := Dirty.clean, lifetime := lifetime,
    no_datastore := no_datastore, cookie_only_thresh := cookie_only_threshold,
    base_key := cookie_key }

/-- Source `Session.terminate(clear_data)`.  `__clear_data` only deletes backend
records (no instance state changes), so `clear_data` does not affect the
resulting state. -/
def terminate (_clear_data : Bool) (s : State) : State :=
  { s with
      sid := none, data := some [], dirty := Dirty.clean,
      cookie_data := if s.cookie_keys ≠ [] then some [] else none }

/-- Source `Session.__set_sid(sid, make_cookie)`. -/
def set_sid (sid : List Char) (make_cookie : Bool) (s : State) : State :=
  let s := { s with sid := some sid }
  if make_cookie then { s with cookie_data := some [] } else s

/-- Source `Session.__retrieve_data`: memcache first, then the datastore (unless
`no_datastore`); terminate without clearing when the record is lost.
Despite its docstring, the source performs no expiration check here. -/
def retrieve_data (w : World) (s : State) : State :=
  match s.sid with
  | none => s
  | some sd =>
    match w.cache sd with
    | some pdump => { s with data := some (decode_data pdump) }
    | none =>
      if s.no_datastore then terminate false s
      else
        match w.db sd with
        | some pdump => { s with data := some (decode_data pdump) }
        | none => terminate false s

/-- Source `Session.ensure_data_loaded`. -/
def ensure_data_loaded (w : World) (s : State) : State :=
  let s := { s with accessed := true }
  if s.data = none ∧ s.sid ≠ none then retrieve_data w s else s

/-- Source `Session.start(expiration_ts, ssl_only)`.  `defaultExpire` is the
now-plus-lifetime timestamp used when `expiration_ts` is omitted, and
`randHex` the 32 random hex chars of `md5(os.urandom(16)).hexdigest()`. -/
def start (expiration_ts : Option Nat) (ssl_only : Bool) (defaultExpire : Nat)
    (randHex : List Char) (s : State) : State :=
  set_sid (make_sid expiration_ts ssl_only defaultExpire randHex) true
    { s with dirty := Dirty.full, data := some [] }

/-- Source `Session.regenerate_id(expiration_ts)`. -/
def regenerate_id (w : World) (expiration_ts : Option Nat) (randHex : List Char)
    (s : State) : State :=
  if s.sid ≠ none ∨ expiration_ts ≠ none then
    let s1 := ensure_data_loaded w s
    let ts := match expiration_ts with
      | none => get_expiration s1.sid
      | some t => t
    let s2 := set_sid (make_sid (some ts) (is_ssl_only s1.sid) 0 randHex) true s1
    { s2 with dirty := Dirty.full }
  else s

/-- The backend half of `Session.save`: the memcache `set` (TTL is the
session expiration), then — unless memcache-only-dirty or
`no_datastore` — the datastore `put`, whose failure is logged and
swallowed. -/
def backendStore (sid : List Char) (pdump : List Nat) (dirtyPre : Dirty)
    (dbOk : Bool) (s : State) : State × List Effect :=
  let eff := [Effect.cacheSet sid pdump (get_expiration (some sid))]
  if dirtyPre = Dirty.memOnly ∨ s.no_datastore then (s, eff)
  else (s, eff ++ [Effect.dbPut sid pdump dbOk])

/-- Source `Session.save(persist_even_if_using_cookie)`. -/
def save (persist_even_if_using_cookie : Bool) (dbOk : Bool) (s : State) :
    State × List Effect :=
  match s.sid with
  | none => (s, [])
  | some sid =>
    if s.dirty = Dirty.clean then (s, [])
    else
      let dirtyPre := s.dirty
      let s1 := { s with dirty := Dirty.clean }
      let pdump := encode_data (s1.data.getD [])
      if pdump.length * 4 / 3 ≤ s1.cookie_only_thresh then
        let s2 := { s1 with cookie_data := some pdump }
        if persist_even_if_using_cookie = false then (s2, [])
        else backendStore sid pdump dirtyPre dbOk s2
      else
        let s2 := if s1.cookie_keys ≠ [] then { s1 with cookie_data := some [] } else s1
        backendStore sid pdump dirtyPre dbOk s2

/-- Python `dict.pop(k, default)` / `del d[k]` on the association list. -/
def dictDel : Dict → Nat → Dict
  | [], _ => []
  | e :: rest, k => if e.1 = k then rest else e :: dictDel rest k

/-- Source `Session.clear`. -/
def clear (s : State) : State :=
  if s.sid ≠ none then { s with data := some [], dirty := Dirty.full } else s

/-- Source `Session.pop(key, default)`: `dirty` is set before the dict `pop`
runs (so it is set even when `data` is `None` and Python then raises). -/
def pop (w : World) (k : Nat) (s : State) : State :=
  let s1 := ensure_data_loaded w s
  let s2 := { s1 with dirty := Dirty.full }
  { s2 with data := s2.data.map fun d => dictDel d k }

/-- Source `Session.pop_quick(key, default)`. -/
def pop_quick (w : World) (k : Nat) (s : State) : State :=
  let s1 := ensure_data_loaded w s
  let s2 := if s1.dirty = Dirty.clean then { s1 with dirty := Dirty.memOnly } else s1
  { s2 with data := s2.data.map fun d => dictDel d k }

/-- Source `Session.__setitem__(key, value)`; starts a session when none is
active.  When `data` is `None` Python raises from `None.__setitem__`
before reaching `self.dirty = True`, leaving the state as after the
ensure/start. -/
def setitem (w : World) (k : Nat) (v : Val) (defaultExpire : Nat)
    (randHex : List Char) (s : State) : State :=
  let s1 := ensure_data_loaded w s
  let s2 := if s1.sid = none then start none false defaultExpire randHex s1 else s1
  match s2.data with
  | none => s2
  | some d => { s2 with data := some (dictSet d k v), dirty := Dirty.full }

/-- Source `Session.set_quick(key, value)`. -/
def set_quick (w : World) (k : Nat) (v : Val) (defaultExpire : Nat)
    (randHex : List Char) (s : State) : State :=
  let dirtyPre := s.dirty
  let s1 := setitem w k v defaultExpire randHex s
  if dirtyPre = Dirty.clean ∨ dirtyPre = Dirty.memOnly then
    { s1 with dirty := Dirty.memOnly }
  else s1

/-- Source `Session.__delitem__(key)`: on a missing key (or `None` data) Python
raises before reaching `self.dirty = True`. -/
def delitem (w : World) (k : Nat) (s : State) : State :=
  let s1 := ensure_data_loaded w s
  match s1.data with
  | none => s1
  | some d =>
    if (dictGet d k).isSome then
      { s1 with data := some (dictDel d k), dirty := Dirty.full }
    else s1

/-- C2.  For an active dirty session whose encoded payload satisfies
`len(pdump)*4/3 <= cookie_only_threshold`, a flush with
`persist_anyway == false` performs no cache write and no datastore
write; the payload goes only to the pending cookie data. -/
theorem C2_small_payload_cookie_only (s : State) (sd : List Char) (d : Dict)
    (dbOk : Bool) (hsid : s.sid = some sd) (hdirty : s.dirty ≠ Dirty.clean)
    (hdata : s.data = some d)
    (hsize : (encode_data d).length * 4 / 3 ≤ s.cookie_only_thresh) :
    (save false dbOk s).2 = [] ∧
    (save false dbOk s).1.cookie_data = some (encode_data d) := by
  rw [save, hsid]
  simp only [if_neg hdirty, hdata, Option.getD_some, if_pos hsize]
  exact ⟨rfl, rfl⟩

/-- Witness for C2 on a one-entry dict under the default threshold. -/
theorem C2_witness :
    (save false true
      { (initial 604800 false 10240 ['k']) with
        sid := some (pad10 99 ++ '_' :: List.replicate 32 'a'),
        dirty := Dirty.full, data := some [(1, Val.light 2)] }).2 = [] ∧
    (save false true
      { (initial 604800 false 10240 ['k']) with
        sid := some (pad10 99 ++ '_' :: List.replicate 32 'a'),
        dirty := Dirty.full, data := some [(1, Val.light 2)] }).1.cookie_data =
      some (encode_data [(1, Val.light 2)]) :=
  C2_small_payload_cookie_only _ _ _ true rfl (by decide) rfl (by decide)

/-- C3.  For an active dirty session whose encoded payload exceeds the
cookie-only threshold, a flush performs a cache write, and performs a
datastore write iff `no_datastore == false` and the dirty state is not
dirty-memonly. -/
theorem C3_large_payload_backend (s : State) (sd : List Char) (d : Dict)
    (persist dbOk : Bool) (hsid : s.sid = some sd) (hdirty : s.dirty ≠ Dirty.clean)
    (hdata : s.data = some d)
    (hsize : ¬ (encode_data d).length * 4 / 3 ≤ s.cookie_only_thresh) :
    (∃ ttl, Effect.cacheSet sd (encode_data d) ttl ∈ (save persist dbOk s).2) ∧
    (Effect.dbPut sd (encode_data d) dbOk ∈ (save persist dbOk s).2 ↔
      s.no_datastore = false ∧ s.dirty ≠ Dirty.memOnly) := by
  have main : ∀ s' : State, s'.no_datastore = s.no_datastore →
      (∃ ttl, Effect.cacheSet sd (encode_data d) ttl ∈
        (backendStore sd (encode_data d) s.dirty dbOk s').2) ∧
      (Effect.dbPut sd (encode_data d) dbOk ∈
        (backendStore sd (encode_data d) s.dirty dbOk s').2 ↔
        s.no_datastore = false ∧ s.dirty ≠ Dirty.memOnly) := by
    intro s' hno
    rw [backendStore]
    by_cases hmem : s.dirty = Dirty.memOnly ∨ s'.no_datastore = true
    · rw [if_pos hmem]
      refine ⟨⟨get_expiration (some sd), List.mem_singleton_self _⟩, ?_⟩
      constructor
      · intro h
        rw [List.mem_singleton] at h
        exact absurd h (by simp)
      · rintro ⟨h1, h2⟩
        rcases hmem with h | h
        · exact absurd h h2
        · rw [hno, h1] at h
          exact absurd h (by simp)
    · rw [if_neg hmem]
      push_neg at hmem
      refine ⟨⟨get_expiration (some sd),
        List.mem_append_left _ (List.mem_singleton_self _)⟩, ?_⟩
      constructor
      · intro _
        refine ⟨?_, hmem.1⟩
        rw [← hno]
        simpa using hmem.2
      · intro _
        exact List.mem_append_right _ (List.mem_singleton_self _)
  rw [save, hsid]
  dsimp only
  rw [if_neg hdirty, hdata]
  dsimp only [Option.getD_some]
  rw [if_neg hsize]
  by_cases hck : s.cookie_keys = []
  · rw [if_neg (by simp [hck])]
    exact main _ rfl
  · rw [if_pos hck]
    exact main _ rfl

/-- Witness for C3: threshold 0 forces the backend path. -/
theorem C3_witness :
    (∃ ttl, Effect.cacheSet (pad10 99 ++ '_' :: List.replicate 32 'a')
        (encode_data []) ttl ∈
      (save false true
        { (initial 604800 false 0 ['k']) with
          sid := some (pad10 99 ++ '_' :: List.replicate 32 'a'),
          dirty := Dirty.full, data := some [] }).2) ∧
    (Effect.dbPut (pad10 99 ++ '_' :: List.replicate 32 'a') (encode_data []) true ∈
      (save false true
        { (initial 604800 false 0 ['k']) with
          sid := some (pad10 99 ++ '_' :: List.replicate 32 'a'),
          dirty := Dirty.full, data := some [] }).2 ↔
      (initial 604800 false 0 ['k']).no_datastore = false ∧
        ({ (initial 604800 false 0 ['k']) with
          sid := some (pad10 99 ++ '_' :: List.replicate 32 'a'),
          dirty := Dirty.full, data := some [] } : State).dirty ≠ Dirty.memOnly) :=
  C3_large_payload_backend _ _ _ false true rfl (by decide) rfl (by decide)

/-- The concrete session used to refute C6's retry clause: expired-free
43-char sid, threshold 0 so the flush reaches the backend. -/
def stC6 : State :=
  { (initial 604800 false 0 ['k']) with
    sid := some (pad10 42 ++ '_' :: List.replicate 32 'b'),
    dirty := Dirty.full, data := some [] }

/-- Counterexample to C6 as stated: a flush whose datastore write fails
performs exactly one cache write — the cache write is not retried. -/
theorem C6_counterexample :
    Effect.dbPut (pad10 42 ++ '_' :: List.replicate 32 'b') (encode_data [])
        false ∈ (save false false stC6).2 ∧
    ¬ 2 ≤ (save false false stC6).2.countP fun e =>
        match e with
        | Effect.cacheSet _ _ _ => true
        | _ => false := by
  decide

/-- C6 (amended).  During a flush the effect list is empty, a single
cache write, or a cache write followed by the datastore write: every
cache write precedes the datastore write, and a failed datastore write
is swallowed without retrying the cache write. -/
theorem C6_amended_write_order (persist dbOk : Bool) (s : State) :
    (save persist dbOk s).2 = [] ∨
    (∃ sd pd, (save persist dbOk s).2 =
      [Effect.cacheSet sd pd (get_expiration (some sd))]) ∨
    (∃ sd pd, (save persist dbOk s).2 =
      [Effect.cacheSet sd pd (get_expiration (some sd)),
       Effect.dbPut sd pd dbOk]) := by
  have hback : ∀ (sd : List Char) (pd : List Nat) (dp : Dirty) (s' : State),
      (backendStore sd pd dp dbOk s').2 =
          [Effect.cacheSet sd pd (get_expiration (some sd))] ∨
      (backendStore sd pd dp dbOk s').2 =
          [Effect.cacheSet sd pd (get_expiration (some sd)),
           Effect.dbPut sd pd dbOk] := by
    intro sd pd dp s'
    rw [backendStore]
    by_cases h : dp = Dirty.memOnly ∨ s'.no_datastore = true
    · rw [if_pos h]
      exact Or.inl rfl
    · rw [if_neg h]
      exact Or.inr rfl
  rw [save]
  cases hsid : s.sid with
  | none => exact Or.inl rfl
  | some sd =>
    dsimp only
    by_cases hcl : s.dirty = Dirty.clean
    · rw [if_pos hcl]
      exact Or.inl rfl
    · rw [if_neg hcl]
      by_cases hsize : (encode_data (s.data.getD [])).length * 4 / 3 ≤
          s.cookie_only_thresh
      · rw [if_pos hsize]
        by_cases hp : persist = false
        · rw [if_pos hp]
          exact Or.inl rfl
        · rw [if_neg hp]
          rcases hback sd _ s.dirty _ with h | h
          · exact Or.inr (Or.inl ⟨sd, _, h⟩)
          · exact Or.inr (Or.inr ⟨sd, _, h⟩)
      · rw [if_neg hsize]
        by_cases hck : s.cookie_keys = []
        · rw [if_neg (by simp [hck])]
          rcases hback sd _ s.dirty _ with h | h
          · exact Or.inr (Or.inl ⟨sd, _, h⟩)
          · exact Or.inr (Or.inr ⟨sd, _, h⟩)
        · rw [if_pos hck]
          rcases hback sd _ s.dirty _ with h | h
          · exact Or.inr (Or.inl ⟨sd, _, h⟩)
          · exact Or.inr (Or.inr ⟨sd, _, h⟩)

/-- C10.  On an inactive session, `regenerate_id()` with no expiration
timestamp is a no-op, while `regenerate_id(ts)` allocates a fresh sid and
marks the session dirty. -/
theorem C10_regenerate_inactive (w : World) (s : State) (hsid : s.sid = none)
    (rand : List Char) (ts : Nat) :
    regenerate_id w none rand s = s ∧
    (regenerate_id w (some ts) rand s).sid =
      some (make_sid (some ts) false 0 rand) ∧
    (regenerate_id w (some ts) rand s).dirty = Dirty.full := by
  have hens : (ensure_data_loaded w s).sid = none := by
    rw [ensure_data_loaded]
    by_cases h : s.data = none ∧ ¬ s.sid = none
    · exact absurd hsid h.2
    · rw [if_neg (by simpa using h)]
      exact hsid
  refine ⟨?_, ?_, ?_⟩
  · rw [regenerate_id, if_neg (by simp [hsid])]
  · rw [regenerate_id, if_pos (by simp)]
    simp only [hens, set_sid, if_pos rfl]
    rfl
  · rw [regenerate_id, if_pos (by simp)]

/-- Witness for C10 on a fresh session. -/
theorem C10_witness :
    regenerate_id ⟨fun _ => none, fun _ => none⟩ none ['a']
        (initial 604800 false 10240 ['k']) = initial 604800 false 10240 ['k'] ∧
    (regenerate_id ⟨fun _ => none, fun _ => none⟩ (some 7) ['a']
        (initial 604800 false 10240 ['k'])).sid =
      some (make_sid (some 7) false 0 ['a']) ∧
    (regenerate_id ⟨fun _ => none, fun _ => none⟩ (some 7) ['a']
        (initial 604800 false 10240 ['k'])).dirty = Dirty.full :=
  C10_regenerate_inactive ⟨fun _ => none, fun _ => none⟩
    (initial 604800 false 10240 ['k']) rfl ['a'] 7

/-! ## Lexicographic string order and the expiration reaper

Python compares strings lexicographically by code point, with a proper
prefix ordered first; `delete_expired_sessions` (module level) issues a
keys-only query `__key__ < now_str + u'�'`, fetches at most 500
results, deletes them, and reports completion. -/

/-- Python's `<` on strings: lexicographic by code point, proper prefix
first. -/
def strLt : List Char → List Char → Bool
  | [], [] => false
  | [], _ :: _ => true
  | _ :: _, [] => false
  | a :: as, b :: bs => if a < b then true else if b < a then false else strLt as bs

/-- Source `delete_expired_sessions()`: given the current time and the datastore
key set, returns the remaining keys, the fetched-and-deleted batch, and
the `len(results) < 500` completion flag.  The datastore returns only
keys below `unicode(int(time.time())) + u'�'` and at most 500 of
them. -/
def delete_expired_sessions (now : Nat) (dbKeys : List (List Char)) :
    List (List Char) × List (List Char) × Bool :=
  let bound := natRepr now ++ [Char.ofNat 65533]
  let results := (dbKeys.filter fun k => strLt k bound).take 500
  let newDb := dbKeys.filter fun k => decide (k ∉ results)
  (newDb, results, decide (results.length < 500))

/-- C9.  One reaper call deletes only records whose key sorts below the
current-time bound, deletes at most 500 of them, and returns true iff
fewer records than the batch size (500) were deleted. -/
theorem C9_reaper_bounded (now : Nat) (dbKeys : List (List Char)) :
    (∀ k ∈ (delete_expired_sessions now dbKeys).2.1,
      strLt k (natRepr now ++ [Char.ofNat 65533]) = true) ∧
    (delete_expired_sessions now dbKeys).2.1.length ≤ 500 ∧
    ((delete_expired_sessions now dbKeys).2.2 = true ↔
      (delete_expired_sessions now dbKeys).2.1.length < 500) ∧
    (∀ k ∈ dbKeys, k ∉ (delete_expired_sessions now dbKeys).1 →
      k ∈ (delete_expired_sessions now dbKeys).2.1) := by
  unfold delete_expired_sessions
  dsimp only
  refine ⟨?_, ?_, ?_, ?_⟩
  · intro k hk
    have hk2 := List.mem_of_mem_take hk
    exact (List.mem_filter.mp hk2).2
  · exact List.length_take_le _ _
  · exact decide_eq_true_iff
  · intro k hk hnot
    by_contra hres
    exact hnot (List.mem_filter.mpr ⟨hk, by simpa using hres⟩)

/-- Witness for C9: with `now = 5` the key `"0"` is fetched, deleted and
sorts below the bound. -/
theorem C9_witness : strLt ['0'] (natRepr 5 ++ [Char.ofNat 65533]) = true :=
  (C9_reaper_bounded 5 [['0']]).1 ['0'] (by decide)

/-- The session of C5's failing input: constructed with an explicit sid
whose embedded expiration (1) is long past, data not yet loaded. -/
def stC5 : State :=
  { (initial 604800 false 10240 ['k']) with
    sid := some (pad10 1 ++ '_' :: List.replicate 32 'a'), data := none }

/-- C5's backend: memcache lost the record, the datastore still has it. -/
def wC5 : World :=
  { cache := fun _ => none,
    db := fun sd => if sd = pad10 1 ++ '_' :: List.replicate 32 'a' then
      some (encode_data []) else none }

/-- C5 (code bug).  `__retrieve_data`'s docstring promises an expiration
check after fetching, but the code performs none: at time 1000 a session
whose sid expired at time 1 is loaded from the datastore and stays
active instead of being terminated. -/
theorem C5_retrieve_ignores_expiration :
    get_expiration stC5.sid < 1000 ∧
    (retrieve_data wC5 stC5).sid = some (pad10 1 ++ '_' :: List.replicate 32 'a') ∧
    (retrieve_data wC5 stC5).data = some [] := by
  decide

/-! ## Base64, cookie reading, and the public-operation step relation -/

/-- The standard base64 alphabet. -/
def b64Table : List Char :=
  ['A','B','C','D','E','F','G','H','I','J','K','L','M','N','O','P','Q','R',
   'S','T','U','V','W','X','Y','Z','a','b','c','d','e','f','g','h','i','j',
   'k','l','m','n','o','p','q','r','s','t','u','v','w','x','y','z','0','1',
   '2','3','4','5','6','7','8','9','+','/']

/-- The base64 character of a 6-bit value. -/
def b64Char (n : Nat) : Char :=
  b64Table.getD n 'A'

/-- Python `base64.b64encode` on a byte string. -/
def b64encode : List Nat → List Char
  | [] => []
  | [b1] => [b64Char (b1 / 4), b64Char (b1 % 4 * 16), '=', '=']
  | [b1, b2] => [b64Char (b1 / 4), b64Char (b1 % 4 * 16 + b2 / 16),
                 b64Char (b2 % 16 * 4), '=']
  | b1 :: b2 :: b3 :: rest =>
    b64Char (b1 / 4) :: b64Char (b1 % 4 * 16 + b2 / 16) ::
      b64Char (b2 % 16 * 4 + b3 / 64) :: b64Char (b3 % 64) :: b64encode rest

/-- The 6-bit value of a base64 character, if any. -/
def b64CharVal (c : Char) : Option Nat :=
  let i := b64Table.indexOf c
  if i < 64 then some i else none

/-- Python `base64.b64decode`; `none` when the input is malformed (Python 2
raises `TypeError`, which `__read_cookie` catches). -/
def b64decode : List Char → Option (List Nat)
  | [] => some []
  | c1 :: c2 :: c3 :: c4 :: rest =>
    match b64CharVal c1, b64CharVal c2 with
    | some v1, some v2 =>
      if c3 = '=' then
        if c4 = '=' ∧ rest = [] then some [v1 * 4 + v2 / 16] else none
      else
        match b64CharVal c3 with
        | some v3 =>
          if c4 = '=' then
            if rest = [] then some [v1 * 4 + v2 / 16, v2 % 16 * 16 + v3 / 4]
            else none
          else
            match b64CharVal c4 with
            | some v4 =>
              match b64decode rest with
              | some bs =>
                some ((v1 * 4 + v2 / 16) :: (v2 % 16 * 16 + v3 / 4) ::
                  (v3 % 4 * 64 + v4) :: bs)
              | none => none
            | none => none
        | none => none
    | _, _ => none
  | _ => none

/-- Constant `COOKIE_NAME_PREFIX = "DgU"`. -/
def cookiePfx : List Char := ['D', 'g', 'U']

/-- Source `is_gaesessions_key(k)`. -/
def is_gaesessions_key (k : List Char) : Bool :=
  cookiePfx.isPrefixOf k

/-- Python string `<=`, as needed by `list.sort()` on cookie names. -/
def strLe (a b : List Char) : Prop :=
  strLt a b = true ∨ a = b

instance : DecidableRel strLe := fun a b =>
  inferInstanceAs (Decidable (_ ∨ _))

/-- Python `list.sort()` on a list of strings (ascending lexicographic). -/
def sortStr (l : List (List Char)) : List (List Char) :=
  List.insertionSort strLe l

/-- Python `SimpleCookie` value lookup by cookie name. -/
def lookupStr : List (List Char × List Char) → List Char → List Char
  | [], _ => []
  | e :: rest, k => if e.1 = k then e.2 else lookupStr rest k

/-- Source `Session.__read_cookie`, over the parsed `HTTP_COOKIE` name/value
pairs (`none` when the environment variable is absent — the `KeyError`
path) and an HMAC function `hm base_key sid pdump` standing for the
external `Session.__compute_hmac`. -/
def read_cookie (hm : List Char → List Char → List Nat → List Char) (now : Nat)
    (cookie : Option (List (List Char × List Char))) (s : State) : State :=
  match cookie with
  | none => terminate false s
  | some pairs =>
    let keys := (pairs.map Prod.fst).filter is_gaesessions_key
    let s0 := { s with cookie_keys := keys }
    if keys = [] then s0
    else
      let s1 := { s0 with cookie_keys := sortStr keys }
      let data := (sortStr keys).flatMap (lookupStr pairs)
      let sig := data.take 44
      let sid := (data.drop 44).take 43
      let b64pdump := data.drop 87
      match b64decode b64pdump with
      | none => terminate false s1
      | some pdump =>
        if sig = hm s1.base_key sid pdump then
          let s2 := set_sid sid false s1
          if get_expiration (some sid) ≠ 0 ∧ now > get_expiration (some sid) then
            terminate true s2
          else if pdump ≠ [] then { s2 with data := some (decode_data pdump) }
          else { s2 with data := none }
        else s1

/-- Source `Session.__init__`: with an explicit sid the session is bound to it
and loading is deferred; otherwise the cookie is read. -/
def session_new (hm : List Char → List Char → List Nat → List Char) (now : Nat)
    (sidArg : Option (List Char)) (cookie : Option (List (List Char × List Char)))
    (lifetime : Nat) (no_datastore : Bool) (cookie_only_threshold : Nat)
    (cookie_key : List Char) : State :=
  let s := initial lifetime no_datastore cookie_only_threshold cookie_key
  match sidArg with
  | some sd => { (set_sid sd false s) with data := none }
  | none => read_cookie hm now cookie s

/-- One public operation on a session (the arguments carry the
environmental inputs each operation consumes: default expiration for an
implicit `start`, random hex for minted sids, datastore success for
`save`). -/
inductive SOp where
  | readKey (k : Nat)
  | setItem (k : Nat) (v : Val) (defaultExpire : Nat) (randHex : List Char)
  | delItem (k : Nat)
  | popItem (k : Nat)
  | popQuick (k : Nat)
  | setQuick (k : Nat) (v : Val) (defaultExpire : Nat) (randHex : List Char)
  | clearOp
  | startOp (ts : Option Nat) (ssl : Bool) (defaultExpire : Nat) (randHex : List Char)
  | terminateOp (clearData : Bool)
  | regenId (ts : Option Nat) (randHex : List Char)
  | saveOp (persist : Bool) (dbOk : Bool)

/-- The state transition of one public operation. -/
def step (w : World) (s : State) : SOp → State
  | SOp.readKey _ => ensure_data_loaded w s
  | SOp.setItem k v de rh => setitem w k v de rh s
  | SOp.delItem k => delitem w k s
  | SOp.popItem k => pop w k s
  | SOp.popQuick k => pop_quick w k s
  | SOp.setQuick k v de rh => set_quick w k v de rh s
  | SOp.clearOp => clear s
  | SOp.startOp ts ssl de rh => start ts ssl de rh s
  | SOp.terminateOp cd => terminate cd s
  | SOp.regenId ts rh => regenerate_id w ts rh s
  | SOp.saveOp p ok => (save p ok s).1

/-- A sequence of public operations. -/
def runOps (w : World) (s : State) (ops : List SOp) : State :=
  ops.foldl (step w) s

/-- The (amended) C4 invariant: an inactive session has empty (or
not-yet-loaded) data. -/
def InvC4 (s : State) : Prop :=
  s.sid = none → s.data = some [] ∨ s.data = none

/-- Counterexample to C4 as stated: `pop` on a fresh (inactive) session
sets the dirty flag while `sid` stays `null`. -/
theorem C4_counterexample :
    (runOps ⟨fun _ => none, fun _ => none⟩ (initial 604800 false 10240 ['k'])
      [SOp.popItem 0]).sid = none ∧
    (runOps ⟨fun _ => none, fun _ => none⟩ (initial 604800 false 10240 ['k'])
      [SOp.popItem 0]).dirty ≠ Dirty.clean := by
  decide

theorem invC4_terminate (b : Bool) (s : State) : InvC4 (terminate b s) :=
  fun _ => Or.inl rfl

theorem invC4_retrieve (w : World) (s : State) (h : InvC4 s) :
    InvC4 (retrieve_data w s) := by
  unfold retrieve_data
  split
  · exact h
  · rename_i sd heq
    split
    · intro hs
      rw [show ({ s with data := some (decode_data _) } : State).sid = s.sid from rfl,
        heq] at hs
      exact absurd hs (by simp)
    · split
      · exact invC4_terminate _ _
      · split
        · intro hs
          rw [show ({ s with data := some (decode_data _) } : State).sid = s.sid from rfl,
            heq] at hs
          exact absurd hs (by simp)
        · exact invC4_terminate _ _

theorem invC4_ensure (w : World) (s : State) (h : InvC4 s) :
    InvC4 (ensure_data_loaded w s) := by
  unfold ensure_data_loaded
  dsimp only
  split
  · exact invC4_retrieve w _ (fun hs => h hs)
  · exact fun hs => h hs

theorem invC4_save (p ok : Bool) (s : State) (h : InvC4 s) :
    InvC4 ((save p ok s).1) := by
  have hsame : (save p ok s).1.sid = s.sid ∧ (save p ok s).1.data = s.data := by
    unfold save
    split
    · exact ⟨rfl, rfl⟩
    · split
      · exact ⟨rfl, rfl⟩
      · dsimp only
        split
        · split
          · exact ⟨rfl, rfl⟩
          · unfold backendStore
            split <;> exact ⟨rfl, rfl⟩
        · split <;> (unfold backendStore; split <;> exact ⟨rfl, rfl⟩)
  intro hs
  rw [hsame.2]
  exact h (hsame.1 ▸ hs)

theorem set_sid_sid (x : List Char) (mk : Bool) (s : State) :
    (set_sid x mk s).sid = some x := by
  unfold set_sid
  dsimp only
  split <;> rfl

theorem start_sid (ts : Option Nat) (ssl : Bool) (de : Nat) (rh : List Char)
    (s : State) : (start ts ssl de rh s).sid = some (make_sid ts ssl de rh) := by
  unfold start
  exact set_sid_sid _ _ _

theorem invC4_setitem (w : World) (k : Nat) (v : Val) (de : Nat) (rh : List Char)
    (s : State) (h : InvC4 s) : InvC4 (setitem w k v de rh s) := by
  unfold setitem
  dsimp only
  by_cases hsid : (ensure_data_loaded w s).sid = none
  · rw [if_pos hsid]
    split
    · intro hs
      rw [start_sid] at hs
      exact Option.noConfusion hs
    · intro hs
      have hs2 : (start none false de rh (ensure_data_loaded w s)).sid = none := hs
      rw [start_sid] at hs2
      exact Option.noConfusion hs2
  · rw [if_neg hsid]
    split
    · exact invC4_ensure w s h
    · intro hs
      exact absurd (show (ensure_data_loaded w s).sid = none from hs) hsid

theorem invC4_delitem (w : World) (k : Nat) (s : State) (h : InvC4 s) :
    InvC4 (delitem w k s) := by
  unfold delitem
  dsimp only
  split
  · exact invC4_ensure w s h
  · rename_i d heq
    split
    · rename_i hget
      intro hs
      have hsidn : (ensure_data_loaded w s).sid = none := hs
      rcases invC4_ensure w s h hsidn with h2 | h2
      · rw [heq] at h2
        obtain rfl : d = [] := by simpa using h2
        rw [show dictGet [] k = none from rfl] at hget
        exact absurd hget (by simp)
      · rw [heq] at h2
        exact absurd h2 (by simp)
    · exact invC4_ensure w s h

theorem invC4_pop (w : World) (k : Nat) (s : State) (h : InvC4 s) :
    InvC4 (pop w k s) := by
  unfold pop InvC4
  dsimp only
  intro hs
  rcases invC4_ensure w s h hs with h2 | h2
  · rw [h2]
    exact Or.inl rfl
  · rw [h2]
    exact Or.inr rfl

theorem invC4_popquick (w : World) (k : Nat) (s : State) (h : InvC4 s) :
    InvC4 (pop_quick w k s) := by
  unfold pop_quick InvC4
  dsimp only
  by_cases hd : (ensure_data_loaded w s).dirty = Dirty.clean
  · rw [if_pos hd]
    dsimp only
    intro hs
    rcases invC4_ensure w s h hs with h2 | h2
    · rw [h2]
      exact Or.inl rfl
    · rw [h2]
      exact Or.inr rfl
  · rw [if_neg hd]
    intro hs
    rcases invC4_ensure w s h hs with h2 | h2
    · rw [h2]
      exact Or.inl rfl
    · rw [h2]
      exact Or.inr rfl

theorem invC4_setquick (w : World) (k : Nat) (v : Val) (de : Nat) (rh : List Char)
    (s : State) (h : InvC4 s) : InvC4 (set_quick w k v de rh s) := by
  unfold set_quick
  dsimp only
  by_cases hd : s.dirty = Dirty.clean ∨ s.dirty = Dirty.memOnly
  · rw [if_pos hd]
    intro hs
    exact invC4_setitem w k v de rh s h hs
  · rw [if_neg hd]
    exact invC4_setitem w k v de rh s h

theorem invC4_clear (s : State) (h : InvC4 s) : InvC4 (clear s) := by
  unfold clear
  split
  · intro _
    exact Or.inl rfl
  · exact h

theorem invC4_start (ts : Option Nat) (ssl : Bool) (de : Nat) (rh : List Char)
    (s : State) : InvC4 (start ts ssl de rh s) := by
  intro hs
  rw [start_sid] at hs
  exact Option.noConfusion hs

theorem invC4_regen (w : World) (ts : Option Nat) (rh : List Char) (s : State)
    (h : InvC4 s) : InvC4 (regenerate_id w ts rh s) := by
  unfold regenerate_id
  dsimp only
  split
  · intro hs
    have hs2 : (set_sid (make_sid _ _ 0 rh) true (ensure_data_loaded w s)).sid =
        none := hs
    rw [set_sid_sid] at hs2
    exact Option.noConfusion hs2
  · exact h

theorem invC4_step (w : World) (s : State) (op : SOp) (h : InvC4 s) :
    InvC4 (step w s op) := by
  cases op with
  | readKey k => exact invC4_ensure w s h
  | setItem k v de rh => exact invC4_setitem w k v de rh s h
  | delItem k => exact invC4_delitem w k s h
  | popItem k => exact invC4_pop w k s h
  | popQuick k => exact invC4_popquick w k s h
  | setQuick k v de rh => exact invC4_setquick w k v de rh s h
  | clearOp => exact invC4_clear s h
  | startOp ts ssl de rh => exact invC4_start ts ssl de rh s
  | terminateOp cd => exact invC4_terminate cd s
  | regenId ts rh => exact invC4_regen w ts rh s h
  | saveOp p ok => exact invC4_save p ok s h

theorem invC4_runOps (w : World) (s : State) (ops : List SOp) (h : InvC4 s) :
    InvC4 (runOps w s ops) := by
  induction ops generalizing s with
  | nil => exact h
  | cons op rest ih =>
    exact ih (step w s op) (invC4_step w s op h)

theorem invC4_read_cookie (hm : List Char → List Char → List Nat → List Char)
    (now : Nat) (cookie : Option (List (List Char × List Char))) (s : State)
    (h : InvC4 s) : InvC4 (read_cookie hm now cookie s) := by
  unfold read_cookie
  split
  · exact invC4_terminate _ _
  · dsimp only
    split
    · exact fun hs => h hs
    · split
      · exact invC4_terminate _ _
      · split
        · split
          · exact invC4_terminate _ _
          · split
            · intro hs
              dsimp only at hs
              rw [set_sid_sid] at hs
              exact Option.noConfusion hs
            · intro _
              exact Or.inr rfl
        · exact fun hs => h hs

/-- C4 (amended).  After construction and any sequence of public
operations, an inactive session (`sid == null`) has empty or null data;
the dirty-flag half of the original claim is refuted by
`C4_counterexample`. -/
theorem C4_amended_inactive_data_empty :
    (∀ hm now sidArg cookie lifetime no_ds thresh key,
      InvC4 (session_new hm now sidArg cookie lifetime no_ds thresh key)) ∧
    (∀ w s ops, InvC4 s → InvC4 (runOps w s ops)) := by
  constructor
  · intro hm now sidArg cookie lifetime no_ds thresh key
    unfold session_new
    split
    · intro hs
      exact Or.inr rfl
    · exact invC4_read_cookie hm now cookie _ (fun _ => Or.inl rfl)
  · exact fun w s ops h => invC4_runOps w s ops h

/-- Witness for C4 (amended): a fresh cookieless session, then a `pop`. -/
theorem C4_witness :
    InvC4 (runOps ⟨fun _ => none, fun _ => none⟩
      (session_new (fun _ _ _ => []) 0 none none 604800 false 10240 ['k'])
      [SOp.popItem 0]) :=
  C4_amended_inactive_data_empty.2 ⟨fun _ => none, fun _ => none⟩
    (session_new (fun _ _ _ => []) 0 none none 604800 false 10240 ['k'])
    [SOp.popItem 0]
    (C4_amended_inactive_data_empty.1 (fun _ _ _ => []) 0 none none 604800 false
      10240 ['k'])

/-! ## Cookie fragmenting: `Session.make_cookie_headers`

The constants mirror the module header: `MAX_COOKIE_LEN = 4096`,
`COOKIE_OVERHEAD = len(COOKIE_FMT % (0, '', '')) +
len('expires=Xxx, xx XXX XXXX XX:XX:XX GMT; ') + 150`, and
`MAX_DATA_PER_COOKIE = MAX_COOKIE_LEN - COOKIE_OVERHEAD`.  We embed the
list comprehension
`[fmt % (i, cv[i*m:i*m+m], ed) for i in xrange(num_cookies)]` by its
name/value pairs (`cookieFragments`); the surrounding header text and the
`expires` date rendering carry no session data. -/

/-- Constant `COOKIE_FMT % (0, '', '')`: the fixed header text around a fragment. -/
def COOKIE_FMT_rendered_empty : List Char :=
  (" DgU00=\"\"; Path=/; HttpOnly").toList

/-- The `expires` placeholder whose length enters `COOKIE_OVERHEAD`. -/
def EXPIRES_PLACEHOLDER : List Char :=
  ("expires=Xxx, xx XXX XXXX XX:XX:XX GMT; ").toList

def MAX_COOKIE_LEN : Nat := 4096

def COOKIE_OVERHEAD : Nat :=
  COOKIE_FMT_rendered_empty.length + EXPIRES_PLACEHOLDER.length + 150

def MAX_DATA_PER_COOKIE : Nat := MAX_COOKIE_LEN - COOKIE_OVERHEAD

/-- Python `'%02d' % i`. -/
def fmt02 (i : Nat) : List Char :=
  List.replicate (2 - (natRepr i).length) '0' ++ natRepr i

/-- The name of the `i`-th data cookie: `COOKIE_NAME_PREFIX + '%02d' % i`. -/
def cookieName (i : Nat) : List Char :=
  cookiePfx ++ fmt02 i

/-- The signed value `sig + sid + b64encode(cookie_data)` of
`make_cookie_headers` (empty when no cookie needs to be sent). -/
def signedValue (hm : List Char → List Char → List Nat → List Char)
    (s : State) : List Char :=
  match s.sid, s.cookie_data with
  | some sid, some cd => hm s.base_key sid cd ++ sid ++ b64encode cd
  | _, _ => []

/-- The (name, value) pairs of the data cookies emitted by
`make_cookie_headers`: the signed value is cut into
`num_cookies = 1 + (len(cv) - 1) / m` slices `cv[i*m : i*m+m]` (`/` is
Python floor division, hence `Int.fdiv`), with `m` 8 smaller for
SSL-only sessions. -/
def cookieFragments (hm : List Char → List Char → List Nat → List Char)
    (s : State) : List (List Char × List Char) :=
  match s.sid, s.cookie_data with
  | some sid, some cd =>
    let m := if is_ssl_only (some sid) then MAX_DATA_PER_COOKIE - 8
      else MAX_DATA_PER_COOKIE
    let cv := hm s.base_key sid cd ++ sid ++ b64encode cd
    let num := ((1 : Int) + Int.fdiv ((cv.length : Int) - 1) (m : Int)).toNat
    (List.range num).map fun i => (cookieName i, (cv.drop (i * m)).take m)
  | _, _ => []

/-! ### The lexicographic order: asymmetry, transitivity, totality -/

theorem strLt_irrefl (a : List Char) : strLt a a = false := by
  induction a with
  | nil => rfl
  | cons x xs ih => simp [strLt, ih]

theorem strLt_asymm : ∀ a b, strLt a b = true → strLt b a = true → False := by
  intro a
  induction a with
  | nil =>
    intro b h1 h2
    cases b with
    | nil => simp [strLt] at h1
    | cons y ys => simp [strLt] at h2
  | cons x xs ih =>
    intro b h1 h2
    cases b with
    | nil => simp [strLt] at h1
    | cons y ys =>
      simp only [strLt] at h1 h2
      by_cases hxy : x < y
      · rw [if_neg (lt_asymm hxy), if_pos hxy] at h2
        exact absurd h2 (by simp)
      · by_cases hyx : y < x
        · rw [if_neg hxy, if_pos hyx] at h1
          exact absurd h1 (by simp)
        · rw [if_neg hxy, if_neg hyx] at h1
          rw [if_neg hyx, if_neg hxy] at h2
          exact ih ys h1 h2

theorem strLt_trans :
    ∀ a b c : List Char, strLt a b = true → strLt b c = true → strLt a c = true := by
  intro a
  induction a with
  | nil =>
    intro b c h1 h2
    cases b with
    | nil => simp [strLt] at h1
    | cons y ys =>
      cases c with
      | nil => simp [strLt] at h2
      | cons z zs => rfl
  | cons x xs ih =>
    intro b c h1 h2
    cases b with
    | nil => simp [strLt] at h1
    | cons y ys =>
      cases c with
      | nil => simp [strLt] at h2
      | cons z zs =>
        simp only [strLt] at h1 h2 ⊢
        by_cases hxy : x < y
        · by_cases hyz : y < z
          · rw [if_pos (lt_trans hxy hyz)]
          · by_cases hzy : z < y
            · rw [if_neg hyz, if_pos hzy] at h2
              exact absurd h2 (by simp)
            · have hyz' : y = z := le_antisymm (not_lt.mp hzy) (not_lt.mp hyz)
              rw [if_pos (hyz' ▸ hxy)]
        · by_cases hyx : y < x
          · rw [if_neg hxy, if_pos hyx] at h1
            exact absurd h1 (by simp)
          · have hxy' : x = y := le_antisymm (not_lt.mp hyx) (not_lt.mp hxy)
            subst hxy'
            rw [if_neg (lt_irrefl x), if_neg (lt_irrefl x)] at h1
            by_cases hxz : x < z
            · rw [if_pos hxz]
            · by_cases hzx : z < x
              · rw [if_neg hxz, if_pos hzx] at h2
                exact absurd h2 (by simp)
              · rw [if_neg hxz, if_neg hzx] at h2 ⊢
                exact ih ys zs h1 h2

theorem strLt_total : ∀ a b : List Char,
    strLt a b = true ∨ strLt b a = true ∨ a = b := by
  intro a
  induction a with
  | nil =>
    intro b
    cases b with
    | nil => exact Or.inr (Or.inr rfl)
    | cons y ys => exact Or.inl rfl
  | cons x xs ih =>
    intro b
    cases b with
    | nil => exact Or.inr (Or.inl rfl)
    | cons y ys =>
      rcases lt_trichotomy x y with h | h | h
      · left
        simp [strLt, h]
      · subst h
        rcases ih ys with h2 | h2 | h2
        · left
          simp [strLt, lt_irrefl, h2]
        · right
          left
          simp [strLt, lt_irrefl, h2]
        · right
          right
          rw [h2]
      · right
        left
        simp [strLt, h, lt_asymm h]

/-- The sort key of `make_cookie_headers`' fragments / `__read_cookie`'s
reassembly: cookie-name order. -/
def pairLe (p q : List Char × List Char) : Prop :=
  strLt p.1 q.1 = true ∨ p.1 = q.1

instance : DecidableRel pairLe := fun p q =>
  inferInstanceAs (Decidable (_ ∨ _))

instance : IsTotal (List Char × List Char) pairLe :=
  ⟨by
    intro p q
    rcases strLt_total p.1 q.1 with h | h | h
    · exact Or.inl (Or.inl h)
    · exact Or.inr (Or.inl h)
    · exact Or.inl (Or.inr h)⟩

instance : IsTrans (List Char × List Char) pairLe :=
  ⟨by
    intro p q r hpq hqr
    rcases hpq with h1 | h1 <;> rcases hqr with h2 | h2
    · exact Or.inl (strLt_trans _ _ _ h1 h2)
    · exact Or.inl (h2 ▸ h1)
    · exact Or.inl (h1 ▸ h2)
    · exact Or.inr (h1.trans h2)⟩

/-- Sorting the fragments into lexicographic name order. -/
def sortPairs (l : List (List Char × List Char)) :
    List (List Char × List Char) :=
  List.insertionSort pairLe l

/-- Strict name order on fragments. -/
def pairLt (p q : List Char × List Char) : Prop :=
  strLt p.1 q.1 = true

theorem pairLt_asymm {p q : List Char × List Char} (h1 : pairLt p q)
    (h2 : pairLt q p) : False :=
  strLt_asymm _ _ h1 h2

/-- Two permutations of the same fragments that are both strictly sorted
by name are equal. -/
theorem strictSorted_perm_eq :
    ∀ l₁ l₂ : List (List Char × List Char), l₁.Perm l₂ →
      l₁.Pairwise pairLt → l₂.Pairwise pairLt → l₁ = l₂ := by
  intro l₁
  induction l₁ with
  | nil =>
    intro l₂ hp _ _
    exact (hp.symm.eq_nil).symm
  | cons a t ih =>
    intro l₂ hp h1 h2
    cases l₂ with
    | nil => exact absurd hp.eq_nil (by simp)
    | cons b t₂ =>
      have hab : a = b := by
        have ha2 : a ∈ b :: t₂ := hp.mem_iff.mp (List.mem_cons_self a t)
        rcases List.mem_cons.mp ha2 with h | h
        · exact h
        · have hba : pairLt b a := (List.pairwise_cons.mp h2).1 a h
          have hb1 : b ∈ a :: t := hp.symm.mem_iff.mp (List.mem_cons_self b t₂)
          rcases List.mem_cons.mp hb1 with h' | h'
          · exact h'.symm
          · have hab' : pairLt a b := (List.pairwise_cons.mp h1).1 b h'
            exact (pairLt_asymm hab' hba).elim
      subst hab
      rw [ih t₂ hp.cons_inv (List.pairwise_cons.mp h1).2
        (List.pairwise_cons.mp h2).2]

/-! ### Chunking lemmas -/

/-- Count `1 + (L - 1) fdiv m` as a natural number, for non-empty input. -/
theorem numFrags_eq (L m : Nat) (hL : 1 ≤ L) :
    ((1 : Int) + Int.fdiv ((L : Int) - 1) (m : Int)).toNat = 1 + (L - 1) / m := by
  rw [Int.fdiv_eq_ediv _ (Int.natCast_nonneg m),
    show ((L : Int) - 1) = ((L - 1 : Nat) : Int) from by omega]
  norm_cast

theorem flatten_chunks_aux (m : Nat) (hm : 0 < m) :
    ∀ (n : Nat) (cv : List Char), cv.length ≤ n → cv ≠ [] →
      ((List.range (1 + (cv.length - 1) / m)).map
        (fun i => (cv.drop (i * m)).take m)).flatten = cv := by
  intro n
  induction n with
  | zero =>
    intro cv hlen hne
    cases cv with
    | nil => exact absurd rfl hne
    | cons c cs => simp at hlen
  | succ k ih =>
    intro cv hlen hne
    have hL1 : 1 ≤ cv.length := List.length_pos.mpr hne
    by_cases hLm : cv.length ≤ m
    · have hdiv : (cv.length - 1) / m = 0 := Nat.div_eq_of_lt (by omega)
      rw [hdiv]
      show ((List.range 1).map _).flatten = cv
      rw [show List.range 1 = [0] from rfl]
      simp [List.take_of_length_le hLm]
    · push_neg at hLm
      have hK : (cv.length - 1) / m = ((cv.drop m).length - 1) / m + 1 := by
        rw [List.length_drop]
        have hsplit : cv.length - 1 = (cv.length - m - 1) + m := by omega
        rw [hsplit, Nat.add_div_right _ hm]
      rw [hK, show 1 + (((cv.drop m).length - 1) / m + 1) =
        (1 + ((cv.drop m).length - 1) / m) + 1 from by omega]
      rw [List.range_succ_eq_map, List.map_cons, List.map_map,
        List.flatten_cons]
      have hmap : (List.range (1 + ((cv.drop m).length - 1) / m)).map
            ((fun i => (cv.drop (i * m)).take m) ∘ Nat.succ) =
          (List.range (1 + ((cv.drop m).length - 1) / m)).map
            (fun i => ((cv.drop m).drop (i * m)).take m) := by
        apply List.map_congr_left
        intro i _
        show (cv.drop ((i + 1) * m)).take m = ((cv.drop m).drop (i * m)).take m
        rw [List.drop_drop, show m + i * m = (i + 1) * m from by ring]
      rw [hmap, ih (cv.drop m) (by rw [List.length_drop]; omega)
        (by
          intro hnil
          have := congrArg List.length hnil
          rw [List.length_drop] at this
          simp at this
          omega)]
      show (cv.drop (0 * m)).take m ++ cv.drop m = cv
      rw [Nat.zero_mul, List.drop_zero, List.take_append_drop]

/-- Consecutive chunks flatten to a prefix. -/
theorem flatten_chunks_prefix (m : Nat) (cv : List Char) :
    ∀ k, ((List.range k).map (fun i => (cv.drop (i * m)).take m)).flatten =
      cv.take (k * m) := by
  intro k
  induction k with
  | zero => simp
  | succ j ihj =>
    rw [List.range_succ, List.map_append, List.flatten_append, ihj]
    simp only [List.map_cons, List.map_nil, List.flatten_cons, List.flatten_nil,
      List.append_nil]
    rw [show (j + 1) * m = j * m + m from by ring, List.take_add]

/-! ### Cookie-name order facts (kernel-checked on the finite ranges) -/

set_option maxRecDepth 10000 in
theorem nameLt_dec : ∀ i, i < 100 → ∀ j, j < 100 → i < j →
    strLt (cookieName i) (cookieName j) = true := by
  decide

set_option maxRecDepth 10000 in
theorem nameLt_100 : ∀ i, i < 11 →
    strLt (cookieName i) (cookieName 100) = true := by
  decide

set_option maxRecDepth 10000 in
theorem name100_lt : ∀ j, j < 100 → 11 ≤ j →
    strLt (cookieName 100) (cookieName j) = true := by
  decide

/-- With at most 100 fragments the emission order is already the
lexicographic name order, and the fragments reassemble to the signed
value. -/
theorem frags_sorted_and_flatten (m : Nat) (hm0 : 0 < m) (cv : List Char)
    (num : Nat)
    (hnum_eq : num = ((1 : Int) + Int.fdiv ((cv.length : Int) - 1) (m : Int)).toNat)
    (hnum100 : num ≤ 100) :
    sortPairs ((List.range num).map
        (fun i => (cookieName i, (cv.drop (i * m)).take m))) =
      (List.range num).map (fun i => (cookieName i, (cv.drop (i * m)).take m)) ∧
    ((((List.range num).map
        (fun i => (cookieName i, (cv.drop (i * m)).take m))).map Prod.snd).flatten) =
      cv := by
  set f : Nat → List Char × List Char :=
    fun i => (cookieName i, (cv.drop (i * m)).take m) with hf
  have hstrict : ((List.range num).map f).Pairwise pairLt := by
    rw [List.pairwise_map]
    refine (List.pairwise_lt_range num).imp_of_mem ?_
    intro a b ha hb hlt
    have ha' : a < num := List.mem_range.mp ha
    have hb' : b < num := List.mem_range.mp hb
    exact nameLt_dec a (by omega) b (by omega) hlt
  constructor
  · apply strictSorted_perm_eq _ _ (List.perm_insertionSort pairLe _)
    · have hsorted : List.Pairwise pairLe (sortPairs ((List.range num).map f)) :=
        List.sorted_insertionSort pairLe _
      have hneFrags : List.Pairwise (fun p q : List Char × List Char => p.1 ≠ q.1)
          ((List.range num).map f) :=
        hstrict.imp fun {p q} h heq => by
          have h' : strLt p.1 q.1 = true := h
          rw [heq, strLt_irrefl] at h'
          exact Bool.noConfusion h'
      have hne : List.Pairwise (fun p q : List Char × List Char => p.1 ≠ q.1)
          (sortPairs ((List.range num).map f)) :=
        (List.Perm.pairwise_iff (fun h => Ne.symm h)
          (List.perm_insertionSort pairLe ((List.range num).map f))).mpr hneFrags
      exact (hsorted.and hne).imp fun {p q} h => by
        rcases h.1 with h1 | h1
        · exact h1
        · exact absurd h1 h.2
    · exact hstrict
  · have hmapmap : (((List.range num).map f).map Prod.snd) =
        (List.range num).map (fun i => (cv.drop (i * m)).take m) := by
      rw [List.map_map]
      rfl
    rw [hmapmap]
    by_cases hcv : cv = []
    · subst hcv
      rw [List.flatten_eq_nil_iff.mpr]
      intro l hl
      rcases List.mem_map.mp hl with ⟨i, _, rfl⟩
      simp
    · rw [hnum_eq, numFrags_eq cv.length m (List.length_pos.mpr hcv)]
      exact flatten_chunks_aux m hm0 cv.length cv (Nat.le_refl _) hcv

/-- Unfolding `cookieFragments` at an active session with pending cookie
data. -/
theorem cookieFragments_eq (hm : List Char → List Char → List Nat → List Char)
    (s : State) (sid : List Char) (cd : List Nat) (hsid : s.sid = some sid)
    (hcd : s.cookie_data = some cd) :
    cookieFragments hm s =
      (List.range (((1 : Int) + Int.fdiv
          (((hm s.base_key sid cd ++ sid ++ b64encode cd).length : Int) - 1)
          (((if is_ssl_only (some sid) then MAX_DATA_PER_COOKIE - 8
            else MAX_DATA_PER_COOKIE) : Nat) : Int)).toNat)).map
        (fun i => (cookieName i,
          ((hm s.base_key sid cd ++ sid ++ b64encode cd).drop
            (i * (if is_ssl_only (some sid) then MAX_DATA_PER_COOKIE - 8
              else MAX_DATA_PER_COOKIE))).take
            (if is_ssl_only (some sid) then MAX_DATA_PER_COOKIE - 8
              else MAX_DATA_PER_COOKIE))) := by
  unfold cookieFragments
  rw [hsid, hcd]

/-- Unfolding `signedValue` at an active session with pending cookie
data. -/
theorem signedValue_eq (hm : List Char → List Char → List Nat → List Char)
    (s : State) (sid : List Char) (cd : List Nat) (hsid : s.sid = some sid)
    (hcd : s.cookie_data = some cd) :
    signedValue hm s = hm s.base_key sid cd ++ sid ++ b64encode cd := by
  unfold signedValue
  rw [hsid, hcd]

/-- C8 (amended).  For an active session with pending cookie data
emitting at most 100 fragments, the fragments — concatenated in
lexicographic name order — equal the signed value `SIG || SID ||
B64(payload)`, and each fragment is at most `MAX_DATA_PER_COOKIE` bytes
(8 fewer when the session is secure-only).  Beyond 100 fragments the
two-digit name format `'%02d'` overflows to three digits and the
lexicographic order no longer matches the emission order (see the
counterexample). -/
theorem C8_amended_fragments (hm : List Char → List Char → List Nat → List Char)
    (s : State) (sid : List Char) (cd : List Nat) (hsid : s.sid = some sid)
    (hcd : s.cookie_data = some cd)
    (hnum : (cookieFragments hm s).length ≤ 100) :
    ((sortPairs (cookieFragments hm s)).map Prod.snd).flatten =
      signedValue hm s ∧
    ∀ p ∈ cookieFragments hm s,
      p.2.length ≤ (if is_ssl_only (some sid) then MAX_DATA_PER_COOKIE - 8
        else MAX_DATA_PER_COOKIE) := by
  have hm0 : 0 < (if is_ssl_only (some sid) then MAX_DATA_PER_COOKIE - 8
      else MAX_DATA_PER_COOKIE) := by
    by_cases h : is_ssl_only (some sid) = true
    · rw [if_pos h]
      decide
    · rw [if_neg h]
      decide
  rw [cookieFragments_eq hm s sid cd hsid hcd] at hnum ⊢
  rw [signedValue_eq hm s sid cd hsid hcd]
  rw [List.length_map, List.length_range] at hnum
  obtain ⟨h1, h2⟩ := frags_sorted_and_flatten _ hm0
    (hm s.base_key sid cd ++ sid ++ b64encode cd) _ rfl hnum
  refine ⟨?_, ?_⟩
  · rw [h1, h2]
  · intro p hp
    rcases List.mem_map.mp hp with ⟨i, _, rfl⟩
    show (List.take _ _).length ≤ _
    rw [List.length_take]
    exact min_le_left _ _

/-- Witness for C8 (amended): a one-fragment session. -/
theorem C8_witness :
    ((sortPairs (cookieFragments (fun _ _ _ => List.replicate 44 'a')
        { (initial 604800 false 10240 ['k']) with
            sid := some (List.replicate 10 '1' ++ '_' :: List.replicate 32 'a'),
            cookie_data := some [1, 2, 3] })).map Prod.snd).flatten =
      signedValue (fun _ _ _ => List.replicate 44 'a')
        { (initial 604800 false 10240 ['k']) with
            sid := some (List.replicate 10 '1' ++ '_' :: List.replicate 32 'a'),
            cookie_data := some [1, 2, 3] } ∧
    ∀ p ∈ cookieFragments (fun _ _ _ => List.replicate 44 'a')
        { (initial 604800 false 10240 ['k']) with
            sid := some (List.replicate 10 '1' ++ '_' :: List.replicate 32 'a'),
            cookie_data := some [1, 2, 3] },
      p.2.length ≤ (if is_ssl_only (some (List.replicate 10 '1' ++ '_' ::
          List.replicate 32 'a')) then MAX_DATA_PER_COOKIE - 8
        else MAX_DATA_PER_COOKIE) :=
  C8_amended_fragments (fun _ _ _ => List.replicate 44 'a') _
    (List.replicate 10 '1' ++ '_' :: List.replicate 32 'a') [1, 2, 3] rfl rfl
    (by decide)

/-! ### Counterexample to C8 as stated

With 101 fragments (signed value of 388003 chars, `m = 3880`) the names
run `DgU00 … DgU99, DgU100`, and lexicographically `DgU100` sorts between
`DgU10` and `DgU11`: the reassembly order differs from the emission
order, so the sorted concatenation is not the signed value. -/

/-- A stand-in HMAC returning a fixed 44-char signature. -/
def hmC8 : List Char → List Char → List Nat → List Char :=
  fun _ _ _ => List.replicate 44 'a'

/-- A 43-char non-secure sid. -/
def sidC8 : List Char := List.replicate 10 'a' ++ '_' :: List.replicate 32 'a'

/-- Repeat `n` copies of the byte block `[105, 166, 154]`, whose base64 is all
`'a'`. -/
def blockRep : Nat → List Nat
  | 0 => []
  | n + 1 => 105 :: 166 :: 154 :: blockRep n

/-- A pending payload whose base64 is 387915 `'a'`s and one final `'b'`:
with the 44-char signature and 43-char sid the signed value has 388003
chars, i.e. 101 fragments. -/
def cdC8 : List Nat := blockRep 96978 ++ [105, 166, 155]

def stC8 : State :=
  { (initial 604800 false 1000000 ['k']) with
      sid := some sidC8, cookie_data := some cdC8 }

def cvC8 : List Char := List.replicate 44 'a' ++ sidC8 ++ b64encode cdC8

/-- The fragment builder at this session. -/
def fC8 : Nat → List Char × List Char :=
  fun i => (cookieName i, (cvC8.drop (i * 3880)).take 3880)

/-- The index order in which `__read_cookie` reassembles the 101
fragments: `DgU100` sorts right after `DgU10`. -/
def idxC8 : List Nat := List.range 11 ++ 100 :: List.range' 11 89

theorem b64_blockRep : ∀ (n : Nat) (t : List Nat),
    b64encode (blockRep n ++ t) = List.replicate (4 * n) 'a' ++ b64encode t := by
  intro n
  induction n with
  | zero =>
    intro t
    simp [blockRep]
  | succ k ih =>
    intro t
    show b64encode (105 :: 166 :: 154 :: (blockRep k ++ t)) = _
    rw [show b64encode (105 :: 166 :: 154 :: (blockRep k ++ t)) =
      'a' :: 'a' :: 'a' :: 'a' :: b64encode (blockRep k ++ t) from rfl,
      ih t, show 4 * (k + 1) = 4 * k + 4 from by ring,
      show List.replicate (4 * k + 4) 'a' =
        'a' :: 'a' :: 'a' :: 'a' :: List.replicate (4 * k) 'a' from rfl]
    simp

theorem hb64C8 : b64encode cdC8 =
    List.replicate 387912 'a' ++ ['a', 'a', 'a', 'b'] := by
  show b64encode (blockRep 96978 ++ [105, 166, 155]) = _
  rw [b64_blockRep, show b64encode [105, 166, 155] = ['a', 'a', 'a', 'b'] from rfl,
    show 4 * 96978 = 387912 from by norm_num]

theorem sidC8_length : sidC8.length = 43 := by
  show (List.replicate 10 'a' ++ '_' :: List.replicate 32 'a').length = 43
  rw [List.length_append, List.length_replicate, List.length_cons,
    List.length_replicate]

theorem hcvlenC8 : cvC8.length = 388003 := by
  show (List.replicate 44 'a' ++ (sidC8 ++ b64encode cdC8)).length = 388003
  rw [hb64C8, List.length_append, List.length_append, List.length_append,
    List.length_replicate, List.length_replicate, sidC8_length,
    show (['a', 'a', 'a', 'b'] : List Char).length = 4 from rfl]

theorem hfragC8 : cookieFragments hmC8 stC8 = (List.range 101).map fC8 := by
  rw [cookieFragments_eq hmC8 stC8 sidC8 cdC8 rfl rfl,
    show (if is_ssl_only (some sidC8) then MAX_DATA_PER_COOKIE - 8
      else MAX_DATA_PER_COOKIE) = 3880 from by decide,
    show hmC8 stC8.base_key sidC8 cdC8 ++ sidC8 ++ b64encode cdC8 = cvC8 from rfl,
    hcvlenC8,
    show ((1 : Int) + Int.fdiv (((388003 : Nat) : Int) - 1)
      (((3880 : Nat) : Int))).toNat = 101 from by decide]
  rfl

theorem hpermIdxC8 : (List.range 101).Perm idxC8 := by
  have h1 : List.range 101 = List.range' 0 11 ++ List.range' 11 90 := by
    rw [List.range_eq_range', show (101 : Nat) = 90 + 11 from by norm_num,
      ← List.range'_append]
  have h2 : List.range' 11 90 = List.range' 11 89 ++ [100] := by
    rw [show (90 : Nat) = 89 + 1 from rfl, List.range'_concat]
  rw [h1, h2, show List.range' 0 11 = List.range 11 from
    (List.range_eq_range' 11).symm]
  exact List.Perm.append_left _ (List.perm_append_singleton 100 _)

theorem hpwIdxC8 : idxC8.Pairwise
    (fun i j => strLt (cookieName i) (cookieName j) = true) := by
  show (List.range 11 ++ 100 :: List.range' 11 89).Pairwise _
  rw [List.pairwise_append]
  refine ⟨?_, ?_, ?_⟩
  · refine (List.pairwise_lt_range 11).imp_of_mem ?_
    intro a b ha hb hlt
    have ha' := List.mem_range.mp ha
    have hb' := List.mem_range.mp hb
    exact nameLt_dec a (by omega) b (by omega) hlt
  · rw [List.pairwise_cons]
    refine ⟨?_, ?_⟩
    · intro j hj
      obtain ⟨i, hi, rfl⟩ := List.mem_range'.mp hj
      exact name100_lt (11 + 1 * i) (by omega) (by omega)
    · refine (List.pairwise_lt_range' 11 89).imp_of_mem ?_
      intro a b ha hb hlt
      obtain ⟨i, hi, rfl⟩ := List.mem_range'.mp ha
      obtain ⟨i2, hi2, rfl⟩ := List.mem_range'.mp hb
      exact nameLt_dec _ (by omega) _ (by omega) hlt
  · intro a ha b hb
    have ha' := List.mem_range.mp ha
    rcases List.mem_cons.mp hb with rfl | hb'
    · exact nameLt_100 a (by omega)
    · obtain ⟨i, hi, rfl⟩ := List.mem_range'.mp hb'
      exact nameLt_dec a (by omega) _ (by omega) (by omega)

theorem htargetStrictC8 : (idxC8.map fC8).Pairwise pairLt :=
  List.pairwise_map.mpr hpwIdxC8

theorem hsortEqC8 : sortPairs (cookieFragments hmC8 stC8) = idxC8.map fC8 := by
  rw [hfragC8]
  apply strictSorted_perm_eq
  · exact (List.perm_insertionSort pairLe _).trans (hpermIdxC8.map fC8)
  · have hneTarget : List.Pairwise
        (fun p q : List Char × List Char => p.1 ≠ q.1) (idxC8.map fC8) :=
      htargetStrictC8.imp fun {p q} h heq => by
        have h' : strLt p.1 q.1 = true := h
        rw [heq, strLt_irrefl] at h'
        exact Bool.noConfusion h'
    have hneFrags : List.Pairwise
        (fun p q : List Char × List Char => p.1 ≠ q.1)
        ((List.range 101).map fC8) :=
      (List.Perm.pairwise_iff (fun h => Ne.symm h) (hpermIdxC8.map fC8)).mpr
        hneTarget
    have hsorted : List.Pairwise pairLe (sortPairs ((List.range 101).map fC8)) :=
      List.sorted_insertionSort pairLe _
    have hne : List.Pairwise (fun p q : List Char × List Char => p.1 ≠ q.1)
        (sortPairs ((List.range 101).map fC8)) :=
      (List.Perm.pairwise_iff (fun h => Ne.symm h)
        (List.perm_insertionSort pairLe ((List.range 101).map fC8))).mpr hneFrags
    exact (hsorted.and hne).imp fun {p q} h => by
      rcases h.1 with h1 | h1
      · exact h1
      · exact absurd h1 h.2
  · exact htargetStrictC8

theorem hchunk100C8 : (cvC8.drop (100 * 3880)).take 3880 = ['a', 'a', 'b'] := by
  have hsplit : cvC8 =
      (List.replicate 44 'a' ++ (sidC8 ++ List.replicate 387912 'a')) ++
        ['a', 'a', 'a', 'b'] := by
    show List.replicate 44 'a' ++ (sidC8 ++ b64encode cdC8) = _
    rw [hb64C8, List.append_assoc, List.append_assoc]
  have hlenA : (List.replicate 44 'a' ++
      (sidC8 ++ List.replicate 387912 'a')).length = 387999 := by
    rw [List.length_append, List.length_append, List.length_replicate,
      List.length_replicate, sidC8_length]
  rw [hsplit, show (100 * 3880 : Nat) = (List.replicate 44 'a' ++
    (sidC8 ++ List.replicate 387912 'a')).length + 1 from by rw [hlenA],
    List.drop_append]
  rfl

theorem hcv42682C8 : cvC8[42682]? = some 'a' := by
  show (List.replicate 44 'a' ++ (sidC8 ++ b64encode cdC8))[42682]? = some 'a'
  rw [List.getElem?_append_right (by rw [List.length_replicate]; omega),
    show (42682 : Nat) - (List.replicate 44 'a').length = 42638 from by
      rw [List.length_replicate],
    List.getElem?_append_right (by
      rw [sidC8_length]
      omega),
    show (42638 : Nat) - sidC8.length = 42595 from by
      rw [sidC8_length],
    hb64C8, List.getElem?_append, List.length_replicate, if_pos (by omega),
    List.getElem?_replicate, if_pos (by omega)]

/-- Counterexample to C8 as stated: with 101 emitted fragments, the
fragments concatenated in lexicographic name order do not equal the
signed value (character 42682 of the reassembly is the `'b'` of fragment
`DgU100`, while the signed value has `'a'` there). -/
theorem C8_counterexample :
    ¬ ((((sortPairs (cookieFragments hmC8 stC8)).map Prod.snd).flatten =
          signedValue hmC8 stC8) ∧
        ∀ p ∈ cookieFragments hmC8 stC8, p.2.length ≤ MAX_DATA_PER_COOKIE) := by
  rintro ⟨heq, -⟩
  rw [hsortEqC8, signedValue_eq hmC8 stC8 sidC8 cdC8 rfl rfl,
    show hmC8 stC8.base_key sidC8 cdC8 ++ sidC8 ++ b64encode cdC8 = cvC8 from rfl,
    show (idxC8.map fC8).map Prod.snd =
      idxC8.map (fun i => (cvC8.drop (i * 3880)).take 3880) from by
        rw [List.map_map]
        rfl,
    show idxC8 = List.range 11 ++ 100 :: List.range' 11 89 from rfl,
    List.map_append, List.map_cons, List.flatten_append, List.flatten_cons,
    flatten_chunks_prefix 3880 cvC8 11,
    show (11 * 3880 : Nat) = 42680 from by norm_num,
    hchunk100C8] at heq
  have hb := congrArg (fun l : List Char => l[42682]?) heq
  dsimp only at hb
  have htl : (cvC8.take 42680).length = 42680 := by
    rw [List.length_take, hcvlenC8]
    omega
  rw [List.getElem?_append_right (by rw [htl]; omega), htl,
    show (42682 : Nat) - 42680 = 2 from rfl,
    show ∀ l : List Char, (['a', 'a', 'b'] ++ l)[2]? = some 'b' from
      fun l => by
        rw [show ['a', 'a', 'b'] ++ l = 'a' :: 'a' :: 'b' :: l from rfl,
          List.getElem?_cons_succ, List.getElem?_cons_succ,
          List.getElem?_cons_zero],
    hcv42682C8] at hb
  exact absurd hb (by simp)

end GaeSessions
